import Mathlib

/-!
Verification of the persistence event pipeline of `cn-persist-pinia-plugin`.

The development shallowly embeds the TypeScript sources
(`src/packages/plugin/src/persist.ts`, `util.ts`, `init.ts`, `restore.ts`,
`plugin.ts`) into Lean: JavaScript runtime values are modelled by the
inductive `JValue`, the storage backend by an association list together
with fault predicates describing which operations throw, the event buffer
by an insertion-ordered association list with JavaScript object update
semantics, and each persistence routine by an executable Lean function
translated line by line from its TypeScript source.  Code that throws is
modelled in `Except`; code whose source wraps the call in `try`/`catch`
is modelled as a total function.
-/

namespace CnPersist

/-! ## JavaScript runtime values

`JValue` models the JavaScript values the plugin manipulates: JSON data
plus a marker for function values (`persistHash`/`persistHashReset` skip
entries whose value has `typeof === 'function'`).  Numbers are modelled
as integers.  `undefined` is identified with `null` (both serialize to
nothing relevant here and both are falsy). -/

inductive JValue where
  | vNull : JValue
  | vBool (b : Bool) : JValue
  | vNum (n : Int) : JValue
  | vStr (s : String) : JValue
  | vArr (xs : List JValue) : JValue
  | vObj (fields : List (String × JValue)) : JValue
  | vFun : JValue

/-- Named characters, by code point: double quote (34). -/
def quoteCh : Char := Char.ofNat 34

/-- Backslash (92). -/
def bslashCh : Char := Char.ofNat 92

/-- Opening curly brace (123). -/
def lbraceCh : Char := Char.ofNat 123

/-- Closing curly brace (125). -/
def rbraceCh : Char := Char.ofNat 125

/-- Newline (10). -/
def nlCh : Char := Char.ofNat 10

/-- Horizontal tab (9). -/
def tabCh : Char := Char.ofNat 9

/-- Carriage return (13). -/
def crCh : Char := Char.ofNat 13

/-- JavaScript truthiness of a `JValue` (`Boolean(v)`): `null`, `false`,
`0` and the empty string are falsy; objects, arrays and functions are
always truthy. -/
def truthy : JValue → Bool
  | .vNull => false
  | .vBool b => b
  | .vNum n => n != 0
  | .vStr s => s != ""
  | .vArr _ => true
  | .vObj _ => true
  | .vFun => true

/-! ## JSON serialization

Modelled from the spec: the repository calls the JavaScript builtins
`JSON.stringify` / `JSON.parse` (the spec's "defaults (stringify/parse)"
and the key-set round trips); the builtins are external to the
repository, so they are reimplemented here: a stringifier producing the
canonical whitespace-free output of `JSON.stringify` and a recursive
descent parser for exactly that grammar.  Function values stringify to
"null" (their in-array behaviour); the claims only ever apply the pair
to function-free values. -/

/-- JSON string escaping of one character, as produced by
`JSON.stringify`: quote, backslash, newline, tab and carriage return are
escaped; other characters are emitted verbatim. -/
def escChar (c : Char) : List Char :=
  if c = quoteCh then [bslashCh, quoteCh]
  else if c = bslashCh then [bslashCh, bslashCh]
  else if c = nlCh then [bslashCh, 'n']
  else if c = tabCh then [bslashCh, 't']
  else if c = crCh then [bslashCh, 'r']
  else [c]

/-- Escape a whole character list. -/
def escChars : List Char → List Char
  | [] => []
  | c :: cs => escChar c ++ escChars cs

/-- A JSON string literal: quote, escaped body, quote. -/
def quoteChars (s : String) : List Char :=
  quoteCh :: (escChars s.data ++ [quoteCh])

/-- Decimal digit to character. -/
def digitCh : Nat → Char
  | 0 => '0'
  | 1 => '1'
  | 2 => '2'
  | 3 => '3'
  | 4 => '4'
  | 5 => '5'
  | 6 => '6'
  | 7 => '7'
  | 8 => '8'
  | _ => '9'

/-- Decimal digits of a positive number, most significant first, with
fuel (any fuel at least the number itself is enough). -/
def natCharsAux : Nat → Nat → List Char
  | 0, _ => []
  | fuel + 1, n => if n = 0 then [] else natCharsAux fuel (n / 10) ++ [digitCh (n % 10)]

/-- Decimal representation of a natural number, most significant digit
first. -/
def natChars (n : Nat) : List Char :=
  if n = 0 then ['0'] else natCharsAux n n

/-- Decimal representation of an integer, as produced by JavaScript
`toString` on integral numbers. -/
def intChars (n : Int) : List Char :=
  if n < 0 then '-' :: natChars n.natAbs else natChars n.natAbs

mutual

/-- Character output of `JSON.stringify` for a `JValue`. -/
def strChars : JValue → List Char
  | .vNull => ['n', 'u', 'l', 'l']
  | .vBool true => ['t', 'r', 'u', 'e']
  | .vBool false => ['f', 'a', 'l', 's', 'e']
  | .vNum n => intChars n
  | .vStr s => quoteChars s
  | .vArr xs => '[' :: (arrBody xs ++ [']'])
  | .vObj fs => lbraceCh :: (objBody fs ++ [rbraceCh])
  | .vFun => ['n', 'u', 'l', 'l']

/-- Body of a stringified array (between the brackets). -/
def arrBody : List JValue → List Char
  | [] => []
  | x :: xs => strChars x ++ arrTail xs

/-- Comma-led tail of a stringified array body. -/
def arrTail : List JValue → List Char
  | [] => []
  | x :: xs => ',' :: (strChars x ++ arrTail xs)

/-- Body of a stringified object (between the braces). -/
def objBody : List (String × JValue) → List Char
  | [] => []
  | (k, v) :: fs => quoteChars k ++ (':' :: strChars v ++ objTail fs)

/-- Comma-led tail of a stringified object body. -/
def objTail : List (String × JValue) → List Char
  | [] => []
  | (k, v) :: fs => ',' :: (quoteChars k ++ (':' :: strChars v ++ objTail fs))

end

/-- The builtin `JSON.stringify` on a `JValue`. -/
def jsonStringify (v : JValue) : String :=
  String.mk (strChars v)

/-! ### JSON parsing -/

/-- Decimal digit test on characters. -/
def isDigitCh (c : Char) : Bool :=
  48 ≤ c.toNat && c.toNat ≤ 57

/-- Inverse of `escChar` on the character following a backslash. -/
def unescCh (c : Char) : Option Char :=
  if c = quoteCh then some quoteCh
  else if c = bslashCh then some bslashCh
  else if c = '/' then some '/'
  else if c = 'n' then some nlCh
  else if c = 't' then some tabCh
  else if c = 'r' then some crCh
  else none

/-- Parse the body of a JSON string literal (after the opening quote) up
to and including the closing quote, returning the unescaped body and the
remaining input. -/
def parseStrBody : List Char → Option (List Char × List Char)
  | [] => none
  | c :: cs =>
    if c = quoteCh then some ([], cs)
    else if c = bslashCh then
      match cs with
      | [] => none
      | e :: cs2 =>
        (unescCh e).bind (fun u => (parseStrBody cs2).map (fun p => (u :: p.1, p.2)))
    else (parseStrBody cs).map (fun p => (c :: p.1, p.2))

/-- Strip an expected literal from the head of the input. -/
def takePre : List Char → List Char → Option (List Char)
  | [], cs => some cs
  | _ :: _, [] => none
  | p :: ps, c :: cs => if c = p then takePre ps cs else none

/-- Split a maximal run of decimal digits off the input. -/
def takeDigits : List Char → List Char × List Char
  | [] => ([], [])
  | c :: cs =>
    if isDigitCh c then
      let p := takeDigits cs
      (c :: p.1, p.2)
    else ([], c :: cs)

/-- Value of a big-endian digit-character list, with accumulator. -/
def digitsToNat (acc : Nat) (cs : List Char) : Nat :=
  cs.foldl (fun a c => a * 10 + (c.toNat - 48)) acc

mutual

/-- Fuel-indexed recursive descent parser for the whitespace-free JSON
emitted by `strChars`. -/
def parseVal : Nat → List Char → Option (JValue × List Char)
  | 0, _ => none
  | fuel + 1, cs =>
    match cs with
    | [] => none
    | c :: r =>
      if c = 'n' then (takePre ['u', 'l', 'l'] r).map (fun r2 => (.vNull, r2))
      else if c = 't' then (takePre ['r', 'u', 'e'] r).map (fun r2 => (.vBool true, r2))
      else if c = 'f' then (takePre ['a', 'l', 's', 'e'] r).map (fun r2 => (.vBool false, r2))
      else if c = quoteCh then
        (parseStrBody r).map (fun p => (.vStr (String.mk p.1), p.2))
      else if c = '[' then
        if r.head? = some ']' then some (.vArr [], r.tail)
        else
          (parseVal fuel r).bind (fun p =>
            (parseArrTail fuel p.2).map (fun q => (.vArr (p.1 :: q.1), q.2)))
      else if c = lbraceCh then
        if r.head? = some rbraceCh then some (.vObj [], r.tail)
        else
          match r with
          | [] => none
          | k0 :: r1 =>
            if k0 = quoteCh then
              (parseStrBody r1).bind (fun pk =>
                if pk.2.head? = some ':' then
                  (parseVal fuel pk.2.tail).bind (fun p =>
                    (parseObjTail fuel p.2).map (fun q =>
                      (.vObj ((String.mk pk.1, p.1) :: q.1), q.2)))
                else none)
            else none
      else if c = '-' then
        let p := takeDigits r
        if p.1.isEmpty then none
        else some (.vNum (-((digitsToNat 0 p.1 : Nat) : Int)), p.2)
      else if isDigitCh c then
        let p := takeDigits (c :: r)
        some (.vNum ((digitsToNat 0 p.1 : Nat) : Int), p.2)
      else none

/-- Parse the comma-led continuation of an array, up to and including the
closing bracket. -/
def parseArrTail : Nat → List Char → Option (List JValue × List Char)
  | 0, _ => none
  | fuel + 1, cs =>
    match cs with
    | [] => none
    | c :: r =>
      if c = ']' then some ([], r)
      else if c = ',' then
        (parseVal fuel r).bind (fun p =>
          (parseArrTail fuel p.2).map (fun q => (p.1 :: q.1, q.2)))
      else none

/-- Parse the comma-led continuation of an object, up to and including
the closing brace. -/
def parseObjTail : Nat → List Char → Option (List (String × JValue) × List Char)
  | 0, _ => none
  | fuel + 1, cs =>
    match cs with
    | [] => none
    | c :: r =>
      if c = rbraceCh then some ([], r)
      else if c = ',' then
        match r with
        | [] => none
        | k0 :: r1 =>
          if k0 = quoteCh then
            (parseStrBody r1).bind (fun pk =>
              if pk.2.head? = some ':' then
                (parseVal fuel pk.2.tail).bind (fun p =>
                  (parseObjTail fuel p.2).map (fun q =>
                    ((String.mk pk.1, p.1) :: q.1, q.2)))
              else none)
          else none
      else none

end

/-- The builtin `JSON.parse`, on the grammar emitted by `jsonStringify`;
a parse error (`JSON.parse` throwing a `SyntaxError`) is `none`. -/
def jsonParse (s : String) : Option JValue :=
  match parseVal (2 * s.data.length + 2) s.data with
  | some (v, []) => some v
  | _ => none

/-! ### Structural equality, size and function-freeness -/

mutual

/-- Structural equality of `JValue`s.  It agrees with JavaScript
SameValueZero on primitives, which is all the key-set code compares
(key sets are arrays of strings). -/
def jvalBeq : JValue → JValue → Bool
  | .vNull, .vNull => true
  | .vBool a, .vBool b => a == b
  | .vNum a, .vNum b => a == b
  | .vStr a, .vStr b => a == b
  | .vArr a, .vArr b => jlistBeq a b
  | .vObj a, .vObj b => jfieldsBeq a b
  | .vFun, .vFun => true
  | _, _ => false

/-- Elementwise equality of value lists. -/
def jlistBeq : List JValue → List JValue → Bool
  | [], [] => true
  | a :: as_, b :: bs => jvalBeq a b && jlistBeq as_ bs
  | _, _ => false

/-- Elementwise equality of field lists. -/
def jfieldsBeq : List (String × JValue) → List (String × JValue) → Bool
  | [], [] => true
  | (ka, va) :: as_, (kb, vb) :: bs => ka == kb && jvalBeq va vb && jfieldsBeq as_ bs
  | _, _ => false

end

mutual

/-- Node count of a value, used as parser fuel measure. -/
def jsize : JValue → Nat
  | .vArr xs => 1 + jsizeL xs
  | .vObj fs => 1 + jsizeF fs
  | _ => 1

/-- Size of an array body. -/
def jsizeL : List JValue → Nat
  | [] => 1
  | x :: xs => 1 + jsize x + jsizeL xs

/-- Size of an object body. -/
def jsizeF : List (String × JValue) → Nat
  | [] => 1
  | (_, v) :: fs => 1 + jsize v + jsizeF fs

end

mutual

/-- A value is JSON-safe when it contains no function values. -/
def funFree : JValue → Bool
  | .vFun => false
  | .vArr xs => funFreeL xs
  | .vObj fs => funFreeF fs
  | _ => true

/-- Function-freeness of an array body. -/
def funFreeL : List JValue → Bool
  | [] => true
  | x :: xs => funFree x && funFreeL xs

/-- Function-freeness of an object body. -/
def funFreeF : List (String × JValue) → Bool
  | [] => true
  | (_, v) :: fs => funFree v && funFreeF fs

end

mutual

theorem jvalBeq_eq (a b : JValue) : jvalBeq a b = true ↔ a = b := by
  cases a <;> cases b
  case vArr.vArr xs ys =>
    simp only [jvalBeq, JValue.vArr.injEq]
    exact jlistBeq_eq xs ys
  case vObj.vObj fs gs =>
    simp only [jvalBeq, JValue.vObj.injEq]
    exact jfieldsBeq_eq fs gs
  all_goals simp [jvalBeq]

theorem jlistBeq_eq (xs ys : List JValue) : jlistBeq xs ys = true ↔ xs = ys := by
  cases xs with
  | nil => cases ys <;> simp [jlistBeq]
  | cons x xs =>
    cases ys with
    | nil => simp [jlistBeq]
    | cons y ys =>
      simp only [jlistBeq, Bool.and_eq_true, List.cons.injEq]
      rw [jvalBeq_eq x y, jlistBeq_eq xs ys]

theorem jfieldsBeq_eq (fs gs : List (String × JValue)) : jfieldsBeq fs gs = true ↔ fs = gs := by
  cases fs with
  | nil => cases gs <;> simp [jfieldsBeq]
  | cons f fs =>
    obtain ⟨k, v⟩ := f
    cases gs with
    | nil => simp [jfieldsBeq]
    | cons g gs =>
      obtain ⟨k2, v2⟩ := g
      simp only [jfieldsBeq, Bool.and_eq_true, List.cons.injEq, Prod.mk.injEq, beq_iff_eq]
      rw [jvalBeq_eq v v2, jfieldsBeq_eq fs gs]

end

instance : DecidableEq JValue := fun a b => decidable_of_iff _ (jvalBeq_eq a b)

/-! ### Round trip of the JSON pair -/

/-- Head-of-input digit test, used to state that the input following a
stringified number cannot extend the digit run. -/
def headDigit : List Char → Bool
  | [] => false
  | c :: _ => isDigitCh c

theorem takePre_self (p rest : List Char) : takePre p (p ++ rest) = some rest := by
  induction p with
  | nil => rfl
  | cons c ps ih => simp [takePre, ih]

theorem escChar_spec (c : Char) :
    (∃ e, escChar c = [bslashCh, e] ∧ unescCh e = some c) ∨
      (escChar c = [c] ∧ c ≠ quoteCh ∧ c ≠ bslashCh) := by
  by_cases h1 : c = quoteCh
  · subst h1
    exact Or.inl ⟨quoteCh, by decide, by decide⟩
  by_cases h2 : c = bslashCh
  · subst h2
    exact Or.inl ⟨bslashCh, by decide, by decide⟩
  by_cases h3 : c = nlCh
  · subst h3
    exact Or.inl ⟨'n', by decide, by decide⟩
  by_cases h4 : c = tabCh
  · subst h4
    exact Or.inl ⟨'t', by decide, by decide⟩
  by_cases h5 : c = crCh
  · subst h5
    exact Or.inl ⟨'r', by decide, by decide⟩
  exact Or.inr ⟨by simp [escChar, h1, h2, h3, h4, h5], h1, h2⟩

theorem parseStrBody_esc (s rest : List Char) :
    parseStrBody (escChars s ++ (quoteCh :: rest)) = some (s, rest) := by
  induction s with
  | nil =>
    simp only [escChars, List.nil_append]
    rw [parseStrBody.eq_def]
    simp
  | cons c cs ih =>
    have hbq : ¬ bslashCh = quoteCh := by decide
    rcases escChar_spec c with ⟨e, he, hu⟩ | ⟨he, hq, hb⟩
    · simp only [escChars, he, List.cons_append, List.append_assoc]
      rw [parseStrBody.eq_def]
      simp [hbq, hu, ih]
    · simp only [escChars, he, List.cons_append, List.append_assoc, List.singleton_append,
        List.nil_append]
      rw [parseStrBody.eq_def]
      simp [hq, hb, ih]

theorem digitCh_toNat (d : Nat) (h : d < 10) : (digitCh d).toNat - 48 = d := by
  interval_cases d <;> decide

theorem isDigitCh_digitCh (d : Nat) (h : d < 10) : isDigitCh (digitCh d) = true := by
  interval_cases d <;> decide

theorem natCharsAux_eq (fuel : Nat) : ∀ n, n ≤ fuel →
    natCharsAux fuel n = (Nat.digits 10 n).reverse.map digitCh := by
  induction fuel with
  | zero =>
    intro n hn
    interval_cases n
    simp [natCharsAux]
  | succ fuel ih =>
    intro n hn
    by_cases h0 : n = 0
    · subst h0
      simp [natCharsAux]
    · have hdiv : n / 10 < n := Nat.div_lt_self (Nat.pos_of_ne_zero h0) (by norm_num)
      simp only [natCharsAux, if_neg h0]
      rw [ih (n / 10) (by omega)]
      rw [Nat.digits_def' (show (1:Nat) < 10 by norm_num) (Nat.pos_of_ne_zero h0)]
      simp

theorem natChars_eq_digits (n : Nat) :
    natChars n = if n = 0 then ['0'] else (Nat.digits 10 n).reverse.map digitCh := by
  unfold natChars
  split
  · rfl
  · exact natCharsAux_eq n n le_rfl

theorem natChars_ne_nil (n : Nat) : natChars n ≠ [] := by
  rw [natChars_eq_digits]
  split
  · simp
  · simp [Nat.digits_ne_nil_iff_ne_zero, *]

theorem natChars_all_digits (n : Nat) : ∀ c ∈ natChars n, isDigitCh c = true := by
  intro c hc
  rw [natChars_eq_digits] at hc
  split at hc
  · simp at hc
    subst hc
    decide
  · simp only [List.mem_map, List.mem_reverse] at hc
    obtain ⟨d, hd, rfl⟩ := hc
    exact isDigitCh_digitCh d (Nat.digits_lt_base (by norm_num) hd)

theorem takeDigits_app (ds rest : List Char) (hds : ∀ c ∈ ds, isDigitCh c = true)
    (hr : headDigit rest = false) : takeDigits (ds ++ rest) = (ds, rest) := by
  induction ds with
  | nil =>
    cases rest with
    | nil => rfl
    | cons c r =>
      simp only [headDigit] at hr
      simp [takeDigits, hr]
  | cons c cs ih =>
    have hc := hds c (List.mem_cons_self c cs)
    simp [takeDigits, hc, ih (fun x hx => hds x (List.mem_cons_of_mem c hx))]

theorem digitsToNat_map (ds : List Nat) (h : ∀ d ∈ ds, d < 10) (acc : Nat) :
    digitsToNat acc (ds.map digitCh) = ds.foldl (fun a d => a * 10 + d) acc := by
  induction ds generalizing acc with
  | nil => rfl
  | cons d ds ih =>
    simp only [digitsToNat, List.map_cons, List.foldl_cons] at ih ⊢
    rw [digitCh_toNat d (h d (List.mem_cons_self d ds))]
    exact ih (fun x hx => h x (List.mem_cons_of_mem d hx)) _

theorem foldl_reverse_ofDigits (ds : List Nat) :
    ds.reverse.foldl (fun a d => a * 10 + d) 0 = Nat.ofDigits 10 ds := by
  induction ds with
  | nil => simp [Nat.ofDigits_nil]
  | cons d ds ih =>
    simp only [List.reverse_cons, List.foldl_append, List.foldl_cons, List.foldl_nil, ih,
      Nat.ofDigits_cons]
    omega

theorem digitsToNat_natChars (n : Nat) : digitsToNat 0 (natChars n) = n := by
  rw [natChars_eq_digits]
  split
  · rename_i h
    subst h
    decide
  · rw [digitsToNat_map _ (fun d hd =>
      Nat.digits_lt_base (by norm_num) (List.mem_reverse.mp hd)) 0]
    rw [foldl_reverse_ofDigits, Nat.ofDigits_digits]

theorem isDigitCh_not_special (c : Char) (h : isDigitCh c = true) :
    c ≠ 'n' ∧ c ≠ 't' ∧ c ≠ 'f' ∧ c ≠ quoteCh ∧ c ≠ '[' ∧ c ≠ lbraceCh ∧ c ≠ '-' ∧
      c ≠ ']' ∧ c ≠ rbraceCh ∧ c ≠ ',' ∧ c ≠ ':' := by
  refine ⟨?_, ?_, ?_, ?_, ?_, ?_, ?_, ?_, ?_, ?_, ?_⟩ <;>
    (rintro rfl; revert h; decide)

theorem jsize_pos (v : JValue) : 1 ≤ jsize v := by
  cases v <;> simp [jsize]

theorem jsizeL_pos (xs : List JValue) : 1 ≤ jsizeL xs := by
  cases xs with
  | nil => simp [jsizeL]
  | cons x xs => simp [jsizeL]; omega

theorem jsizeF_pos (fs : List (String × JValue)) : 1 ≤ jsizeF fs := by
  cases fs with
  | nil => simp [jsizeF]
  | cons f fs => obtain ⟨k, v⟩ := f; simp [jsizeF]; omega

theorem strChars_cons (v : JValue) :
    ∃ c cs, strChars v = c :: cs ∧
      (c = 'n' ∨ c = 't' ∨ c = 'f' ∨ c = quoteCh ∨ c = '[' ∨ c = lbraceCh ∨ c = '-' ∨
        isDigitCh c = true) := by
  cases v with
  | vNull => exact ⟨'n', _, rfl, Or.inl rfl⟩
  | vBool b =>
    cases b
    · exact ⟨'f', _, rfl, Or.inr (Or.inr (Or.inl rfl))⟩
    · exact ⟨'t', _, rfl, Or.inr (Or.inl rfl)⟩
  | vNum n =>
    show ∃ c cs, intChars n = c :: cs ∧ _
    unfold intChars
    split
    · exact ⟨'-', _, rfl, by simp⟩
    · rcases h : natChars n.natAbs with _ | ⟨c, cs⟩
      · exact absurd h (natChars_ne_nil _)
      · refine ⟨c, cs, rfl, ?_⟩
        have := natChars_all_digits n.natAbs c (by rw [h]; exact List.mem_cons_self c cs)
        simp [this]
  | vStr s => exact ⟨quoteCh, _, rfl, by simp⟩
  | vArr xs => exact ⟨'[', _, rfl, by simp⟩
  | vObj fs => exact ⟨lbraceCh, _, rfl, by simp⟩
  | vFun => exact ⟨'n', _, rfl, Or.inl rfl⟩

theorem strChars_head_ne_rbrack (v : JValue) (t : List Char) :
    (strChars v ++ t).head? ≠ some ']' := by
  obtain ⟨c, cs, hv, hc⟩ := strChars_cons v
  rw [hv]
  simp only [List.cons_append, List.head?_cons, ne_eq, Option.some.injEq]
  rcases hc with rfl | rfl | rfl | rfl | rfl | rfl | rfl | hd
  · decide
  · decide
  · decide
  · decide
  · decide
  · decide
  · decide
  · intro h
    subst h
    exact absurd hd (by decide)

theorem strChars_head_ne_rbrace (v : JValue) (t : List Char) :
    (strChars v ++ t).head? ≠ some rbraceCh := by
  obtain ⟨c, cs, hv, hc⟩ := strChars_cons v
  rw [hv]
  simp only [List.cons_append, List.head?_cons, ne_eq, Option.some.injEq]
  rcases hc with rfl | rfl | rfl | rfl | rfl | rfl | rfl | hd
  · decide
  · decide
  · decide
  · decide
  · decide
  · decide
  · decide
  · intro h
    subst h
    exact absurd hd (by decide)

theorem headDigit_arrTail (xs : List JValue) (r : List Char) :
    headDigit (arrTail xs ++ ']' :: r) = false := by
  cases xs with
  | nil => simp [arrTail, headDigit]; decide
  | cons x xs => simp [arrTail, headDigit]; decide

theorem headDigit_objTail (fs : List (String × JValue)) (r : List Char) :
    headDigit (objTail fs ++ rbraceCh :: r) = false := by
  cases fs with
  | nil => simp [objTail, headDigit]; decide
  | cons f fs => obtain ⟨k, v⟩ := f; simp [objTail, headDigit]; decide

theorem strChars_head_info (v : JValue) :
    (strChars v).head? ≠ some ']' ∧ (strChars v).head? ≠ some rbraceCh ∧
      strChars v ≠ [] := by
  obtain ⟨c, cs, hv, hc⟩ := strChars_cons v
  rw [hv]
  refine ⟨?_, ?_, by simp⟩ <;>
    · simp only [List.head?_cons, ne_eq, Option.some.injEq]
      rcases hc with rfl | rfl | rfl | rfl | rfl | rfl | rfl | hd
      · decide
      · decide
      · decide
      · decide
      · decide
      · decide
      · decide
      · intro h
        subst h
        exact absurd hd (by decide)

mutual

theorem parseVal_strChars (v : JValue) (hv : funFree v = true) (fuel : Nat)
    (hf : jsize v ≤ fuel) (rest : List Char) (hr : headDigit rest = false) :
    parseVal fuel (strChars v ++ rest) = some (v, rest) := by
  obtain ⟨f, rfl⟩ : ∃ f, fuel = f + 1 := ⟨fuel - 1, by have := jsize_pos v; omega⟩
  cases v with
  | vFun => exact absurd hv (by simp [funFree])
  | vNull =>
    simp only [strChars, List.cons_append, List.nil_append]
    rw [parseVal.eq_def]
    simp [takePre]
  | vBool b =>
    cases b
    all_goals
      simp only [strChars, List.cons_append, List.nil_append]
      rw [parseVal.eq_def]
      simp [takePre]
  | vNum n =>
    simp only [strChars]
    by_cases hneg : n < 0
    · simp only [intChars, if_pos hneg, List.cons_append]
      have hne : (natChars n.natAbs).isEmpty = false := by
        cases h2 : natChars n.natAbs with
        | nil => exact absurd h2 (natChars_ne_nil _)
        | cons c0 cs0 => rfl
      have htd : takeDigits (natChars n.natAbs ++ rest) = (natChars n.natAbs, rest) :=
        takeDigits_app _ _ (natChars_all_digits _) hr
      rw [parseVal.eq_def]
      have d1 : ¬ '-' = 'n' := by decide
      have d2 : ¬ '-' = 't' := by decide
      have d3 : ¬ '-' = 'f' := by decide
      have d4 : ¬ '-' = quoteCh := by decide
      have d5 : ¬ '-' = '[' := by decide
      have d6 : ¬ '-' = lbraceCh := by decide
      simp [d1, d2, d3, d4, d5, d6, htd, hne, digitsToNat_natChars]
      rw [abs_of_neg hneg, neg_neg]
    · simp only [intChars, if_neg hneg]
      cases h : natChars n.natAbs with
      | nil => exact absurd h (natChars_ne_nil _)
      | cons c0 cs0 =>
        have hall : ∀ c ∈ c0 :: cs0, isDigitCh c = true := by
          rw [← h]; exact natChars_all_digits _
        have hdig : isDigitCh c0 = true := hall c0 (List.mem_cons_self _ _)
        obtain ⟨e1, e2, e3, e4, e5, e6, e7, _, _, _, _⟩ := isDigitCh_not_special c0 hdig
        have htd : takeDigits (c0 :: (cs0 ++ rest)) = (c0 :: cs0, rest) := by
          rw [← List.cons_append]
          exact takeDigits_app _ _ hall hr
        have hval : digitsToNat 0 (c0 :: cs0) = n.natAbs := by
          rw [← h]; exact digitsToNat_natChars _
        have hcast : ((n.natAbs : Int)) = n := by omega
        rw [parseVal.eq_def]
        simp [e1, e2, e3, e4, e5, e6, e7, hdig, htd, hval, hcast]
  | vStr s =>
    simp only [strChars, quoteChars, List.cons_append, List.append_assoc,
      List.singleton_append]
    rw [parseVal.eq_def]
    have d1 : ¬ quoteCh = 'n' := by decide
    have d2 : ¬ quoteCh = 't' := by decide
    have d3 : ¬ quoteCh = 'f' := by decide
    simp [d1, d2, d3, parseStrBody_esc]
  | vArr xs =>
    have d1 : ¬ '[' = 'n' := by decide
    have d2 : ¬ '[' = 't' := by decide
    have d3 : ¬ '[' = 'f' := by decide
    have d4 : ¬ '[' = quoteCh := by decide
    cases xs with
    | nil =>
      simp only [strChars, arrBody, List.nil_append, List.cons_append,
        List.singleton_append]
      rw [parseVal.eq_def]
      simp [d1, d2, d3, d4]
    | cons x xs =>
      simp only [funFree, funFreeL, Bool.and_eq_true] at hv
      obtain ⟨hx, hxs⟩ := hv
      simp only [jsize, jsizeL] at hf
      have hp1 := jsize_pos x
      have hp2 := jsizeL_pos xs
      obtain ⟨hh1, hh2, hh3⟩ := strChars_head_info x
      simp only [strChars, arrBody, List.cons_append, List.append_assoc,
        List.singleton_append]
      rw [parseVal.eq_def]
      simp [d1, d2, d3, d4, hh1, hh2, hh3,
        parseVal_strChars x hx f (by omega) (arrTail xs ++ ']' :: rest)
          (headDigit_arrTail xs rest),
        parseArrTail_arrTail xs hxs f (by omega) rest]
  | vObj fs =>
    have d1 : ¬ lbraceCh = 'n' := by decide
    have d2 : ¬ lbraceCh = 't' := by decide
    have d3 : ¬ lbraceCh = 'f' := by decide
    have d4 : ¬ lbraceCh = quoteCh := by decide
    have d5 : ¬ lbraceCh = '[' := by decide
    cases fs with
    | nil =>
      simp only [strChars, objBody, List.nil_append, List.cons_append,
        List.singleton_append]
      rw [parseVal.eq_def]
      simp [d1, d2, d3, d4, d5]
    | cons kv fs =>
      obtain ⟨k, w⟩ := kv
      simp only [funFree, funFreeF, Bool.and_eq_true] at hv
      obtain ⟨hw, hfs⟩ := hv
      simp only [jsize, jsizeF] at hf
      have hp1 := jsize_pos w
      have hp2 := jsizeF_pos fs
      have d6 : ¬ quoteCh = rbraceCh := by decide
      simp only [strChars, objBody, quoteChars, List.cons_append, List.append_assoc,
        List.singleton_append]
      rw [parseVal.eq_def]
      simp [d1, d2, d3, d4, d5, d6, parseStrBody_esc,
        parseVal_strChars w hw f (by omega) (objTail fs ++ rbraceCh :: rest)
          (headDigit_objTail fs rest),
        parseObjTail_objTail fs hfs f (by omega) rest]

theorem parseArrTail_arrTail (xs : List JValue) (hv : funFreeL xs = true) (fuel : Nat)
    (hf : jsizeL xs + 1 ≤ fuel) (rest : List Char) :
    parseArrTail fuel (arrTail xs ++ ']' :: rest) = some (xs, rest) := by
  obtain ⟨f, rfl⟩ : ∃ f, fuel = f + 1 := ⟨fuel - 1, by have := jsizeL_pos xs; omega⟩
  cases xs with
  | nil =>
    simp only [arrTail, List.nil_append]
    rw [parseArrTail.eq_def]
    simp
  | cons x xs =>
    simp only [funFreeL, Bool.and_eq_true] at hv
    obtain ⟨hx, hxs⟩ := hv
    simp only [jsizeL] at hf
    have hp1 := jsize_pos x
    have hp2 := jsizeL_pos xs
    have d1 : ¬ ',' = ']' := by decide
    simp only [arrTail, List.cons_append, List.append_assoc]
    rw [parseArrTail.eq_def]
    simp [d1,
      parseVal_strChars x hx f (by omega) (arrTail xs ++ ']' :: rest)
        (headDigit_arrTail xs rest),
      parseArrTail_arrTail xs hxs f (by omega) rest]

theorem parseObjTail_objTail (fs : List (String × JValue)) (hv : funFreeF fs = true)
    (fuel : Nat) (hf : jsizeF fs + 1 ≤ fuel) (rest : List Char) :
    parseObjTail fuel (objTail fs ++ rbraceCh :: rest) = some (fs, rest) := by
  obtain ⟨f, rfl⟩ : ∃ f, fuel = f + 1 := ⟨fuel - 1, by have := jsizeF_pos fs; omega⟩
  cases fs with
  | nil =>
    simp only [objTail, List.nil_append]
    rw [parseObjTail.eq_def]
    simp
  | cons kv fs =>
    obtain ⟨k, w⟩ := kv
    simp only [funFreeF, Bool.and_eq_true] at hv
    obtain ⟨hw, hfs⟩ := hv
    simp only [jsizeF] at hf
    have hp1 := jsize_pos w
    have hp2 := jsizeF_pos fs
    have d1 : ¬ ',' = rbraceCh := by decide
    have d2 : ¬ quoteCh = rbraceCh := by decide
    simp only [objTail, quoteChars, List.cons_append, List.append_assoc,
      List.singleton_append]
    rw [parseObjTail.eq_def]
    simp [d1, d2, parseStrBody_esc,
      parseVal_strChars w hw f (by omega) (objTail fs ++ rbraceCh :: rest)
        (headDigit_objTail fs rest),
      parseObjTail_objTail fs hfs f (by omega) rest]

end

mutual

theorem jsize_le_strChars (v : JValue) : jsize v ≤ 2 * (strChars v).length := by
  cases v with
  | vNull => simp [jsize, strChars]
  | vBool b => cases b <;> simp [jsize, strChars]
  | vNum n =>
    have h1 : strChars (.vNum n) ≠ [] := ((strChars_head_info (.vNum n)).2).2
    have h2 : 1 ≤ (strChars (.vNum n)).length := by
      cases h : strChars (.vNum n) with
      | nil => exact absurd h h1
      | cons c cs => simp
    simp only [jsize]
    omega
  | vStr s =>
    have h1 : strChars (.vStr s) ≠ [] := ((strChars_head_info (.vStr s)).2).2
    have h2 : 1 ≤ (strChars (.vStr s)).length := by
      cases h : strChars (.vStr s) with
      | nil => exact absurd h h1
      | cons c cs => simp
    simp only [jsize]
    omega
  | vFun => simp [jsize, strChars]
  | vArr xs =>
    cases xs with
    | nil => simp [jsize, jsizeL, strChars, arrBody]
    | cons x xs =>
      have h1 := jsize_le_strChars x
      have h2 := jsizeL_le_arrTail xs
      simp only [jsize, jsizeL, strChars, arrBody, List.length_cons, List.length_append,
        List.length_singleton]
      omega
  | vObj fs =>
    cases fs with
    | nil => simp [jsize, jsizeF, strChars, objBody]
    | cons kv fs =>
      obtain ⟨k, w⟩ := kv
      have h1 := jsize_le_strChars w
      have h2 := jsizeF_le_objTail fs
      simp only [jsize, jsizeF, strChars, objBody, List.length_cons, List.length_append,
        List.length_singleton]
      omega

theorem jsizeL_le_arrTail (xs : List JValue) : jsizeL xs ≤ 2 * (arrTail xs).length + 1 := by
  cases xs with
  | nil => simp [jsizeL, arrTail]
  | cons x xs =>
    have h1 := jsize_le_strChars x
    have h2 := jsizeL_le_arrTail xs
    simp only [jsizeL, arrTail, List.length_cons, List.length_append]
    omega

theorem jsizeF_le_objTail (fs : List (String × JValue)) :
    jsizeF fs ≤ 2 * (objTail fs).length + 1 := by
  cases fs with
  | nil => simp [jsizeF, objTail]
  | cons kv fs =>
    obtain ⟨k, w⟩ := kv
    have h1 := jsize_le_strChars w
    have h2 := jsizeF_le_objTail fs
    simp only [jsizeF, objTail, List.length_cons, List.length_append]
    omega

end

theorem jsonParse_jsonStringify (v : JValue) (hv : funFree v = true) :
    jsonParse (jsonStringify v) = some v := by
  unfold jsonParse jsonStringify
  have h1 : parseVal (2 * (strChars v).length + 2) (strChars v ++ []) = some (v, []) :=
    parseVal_strChars v hv _ (by have := jsize_le_strChars v; omega) [] rfl
  rw [List.append_nil] at h1
  show (match parseVal (2 * (strChars v).length + 2) (strChars v) with
    | some (w, []) => some w
    | _ => none) = some v
  rw [h1]

theorem jsonStringify_ne_empty (v : JValue) : jsonStringify v ≠ "" := by
  intro h
  apply ((strChars_head_info v).2).2
  have h2 : (jsonStringify v).data = ("" : String).data := by rw [h]
  simpa [jsonStringify] using h2

/-! ## JavaScript object / association-list semantics

JavaScript plain objects (the event buffer `persistBuffer`, `Record`
state values) and the web `Storage` backend are keyed collections with
insertion order: assigning an existing key overwrites in place,
assigning a fresh key appends. -/

/-- Property read: `o[key]`, `undefined` as `none`. -/
def objGet : List (String × α) → String → Option α
  | [], _ => none
  | (k, v) :: rest, key => if k = key then some v else objGet rest key

/-- Property write: `o[key] = v` (overwrite in place or append). -/
def objSet : List (String × α) → String → α → List (String × α)
  | [], key, v => [(key, v)]
  | (k, w) :: rest, key, v =>
    if k = key then (k, v) :: rest else (k, w) :: objSet rest key v

/-- Property delete (used by `Storage.removeItem`). -/
def objRemove : List (String × α) → String → List (String × α)
  | [], _ => []
  | (k, w) :: rest, key =>
    if k = key then objRemove rest key else (k, w) :: objRemove rest key

/-- JavaScript `Set.add`: append if absent, keep insertion order. -/
def setAdd (xs : List JValue) (x : JValue) : List JValue :=
  if x ∈ xs then xs else xs ++ [x]

/-- JavaScript `new Set(array)`: deduplicate keeping first occurrences. -/
def setFromArray (xs : List JValue) : List JValue :=
  xs.foldl setAdd []

/-- JavaScript `Set.delete`. -/
def setDelete (xs : List JValue) (x : JValue) : List JValue :=
  xs.filter (fun y => y ≠ x)

/-- JavaScript string coercion (template literals) of the values the
key-set code can feed to `getPersistHashKey`; arrays and objects are
coerced as JavaScript does only approximately (the pipeline itself only
ever coerces strings). -/
def jsToString : JValue → String
  | .vStr s => s
  | .vNull => "null"
  | .vBool true => "true"
  | .vBool false => "false"
  | .vNum n => String.mk (intChars n)
  | .vArr _ => ""
  | .vObj _ => "object"
  | .vFun => "function"

/-- JavaScript `Object.entries`: the fields of an object; primitives
have no enumerable entries.  (The pipeline only applies it to object
values.) -/
def entriesOf : JValue → List (String × JValue)
  | .vObj fs => fs
  | _ => []

/-! ## util.ts -/

/-- util.ts `getPersistKey`: the storage key of a state. -/
def getPersistKey (storeId : String) (stateName : String) : String :=
  "cn-" ++ storeId ++ "-" ++ stateName

/-- util.ts `getPersistHashKey`: the storage key of one entry of a
HASH-policy state. -/
def getPersistHashKey (persistKey : String) (hashKey : String) : String :=
  persistKey ++ "-" ++ hashKey

/-- util.ts `capitalize`. -/
def capitalize (str : String) : String :=
  match str.data with
  | [] => ""
  | c :: cs => String.mk (c.toUpper :: cs)

/-- types.ts `CnStateSerializer`: `(newValue: unknown) => string | null`
(`none` is the null skip-sentinel). -/
abbrev CnStateSerializer := JValue → Option String

/-- types.ts `CnStateDeserializer`: `(persistedValue: string | null) =>
unknown | null`; a parse failure of the default JSON deserializer is
modelled as the null result. -/
abbrev CnStateDeserializer := Option String → Option JValue

/-- util.ts `DEFAULT_STATE_SERIALIZER`:
`newValue => (newValue ? JSON.stringify(newValue) : '')`. -/
def DEFAULT_STATE_SERIALIZER : CnStateSerializer :=
  fun newValue => some (if truthy newValue then jsonStringify newValue else "")

/-- util.ts `DEFAULT_STATE_DESERIALIZER`:
`persistedValue => (persistedValue ? JSON.parse(persistedValue) : null)`. -/
def DEFAULT_STATE_DESERIALIZER : CnStateDeserializer :=
  fun persistedValue =>
    match persistedValue with
    | some s => if s = "" then none else jsonParse s
    | none => none

/-- util.ts `DEFAULT_DESERIALIZE_POST_HANDLER`: the identity. -/
def DEFAULT_DESERIALIZE_POST_HANDLER : JValue → JValue :=
  fun newValue => newValue

/-- util.ts `isObject`: `typeof v === 'object' && v !== null`. -/
def isObject : JValue → Bool
  | .vObj _ => true
  | .vArr _ => true
  | _ => false

/-! ## Storage backend

types.ts `StorageLike` is `Pick<Storage, 'getItem' | 'setItem' |
'removeItem'>`; the spec stipulates that each of the three operations
may throw.  A backend is modelled by its stored items plus one fault
predicate per operation saying on which keys it throws. -/

structure StorageLike where
  items : List (String × String)
  getThrows : String → Bool
  setThrows : String → Bool
  removeThrows : String → Bool

/-- A direct `storage.getItem(key)` call (may throw). -/
def rawGetItem (storage : StorageLike) (key : String) : Except Unit (Option String) :=
  if storage.getThrows key then .error () else .ok (objGet storage.items key)

/-- A direct `storage.setItem(key, value)` call (may throw). -/
def rawSetItem (storage : StorageLike) (key value : String) : Except Unit StorageLike :=
  if storage.setThrows key then .error ()
  else .ok { storage with items := objSet storage.items key value }

/-- A direct `storage.removeItem(key)` call (may throw). -/
def rawRemoveItem (storage : StorageLike) (key : String) : Except Unit StorageLike :=
  if storage.removeThrows key then .error ()
  else .ok { storage with items := objRemove storage.items key }

/-- persist.ts `setSetItem`/`setItem`: the catching wrapper around
`storage.setItem` — on a throw the write degrades to a no-op and a
console error is logged when `debug` is set.  The returned list is the
console output of the call. -/
def setItem (debug : Bool) (storage : StorageLike) (key value : String) :
    StorageLike × List String :=
  match rawSetItem storage key value with
  | .ok st => (st, [])
  | .error _ =>
    (storage,
      if debug then ["[cn-persist-pinia-plugin] StorageLike.setItem(" ++ key ++ ", " ++ value ++ ")"]
      else [])

/-- restore.ts `setGetItem`/`getItem`: the catching wrapper around
`storage.getItem` — on a throw it returns null and logs when `debug` is
set. -/
def getItem (debug : Bool) (storage : StorageLike) (key : String) :
    Option String × List String :=
  match rawGetItem storage key with
  | .ok v => (v, [])
  | .error _ =>
    (none,
      if debug then ["[cn-persist-pinia-plugin] StorageLike.getItem(" ++ key ++ ")"]
      else [])

/-! ## persist.ts: events and write policies -/

/-- types.ts `CnPersistEventType`. -/
inductive CnPersistEventType where
  | STRING
  | HASH
  | HASH_RESET
  deriving DecidableEq

/-- types.ts `CnPersistEvent`: `{ type, storage, newValue, serialize }`. -/
structure CnPersistEvent where
  type : CnPersistEventType
  storage : StorageLike
  newValue : JValue
  serialize : CnStateSerializer

/-- persist.ts `persistString`: serialize; a null result skips the
write entirely; otherwise write through the catching `setItem`
wrapper. -/
def persistString (debug : Bool) (persistKey : String) (ev : CnPersistEvent) :
    StorageLike × List String :=
  match ev.serialize ev.newValue with
  | none => (ev.storage, [])
  | some persistValue => setItem debug ev.storage persistKey persistValue

/-- Read and materialise the stored hash key-set:
`oldHashKeysString ? new Set(JSON.parse(oldHashKeysString)) : new Set()`.
`JSON.parse` throwing on a corrupt string, and `new Set` throwing on a
non-iterable parse result, are the error case. -/
def readHashKeySet (oldHashKeysString : Option String) : Except Unit (List JValue) :=
  match oldHashKeysString with
  | none => .ok []
  | some s =>
    if s = "" then .ok []
    else
      match jsonParse s with
      | some (.vArr xs) => .ok (setFromArray xs)
      | _ => .error ()

/-- One iteration of the `Object.entries(newHashObject).forEach` loop of
`persistHash`: skip functions, serialize, skip null results, otherwise
write the entry through `setItem` and add its id to the key-set.  The
accumulator is (storage, key-set, console log). -/
def persistHashStep (debug : Bool) (persistKey : String) (serialize : CnStateSerializer)
    (st : StorageLike × List JValue × List String) (e : String × JValue) :
    StorageLike × List JValue × List String :=
  if e.2 = JValue.vFun then st
  else
    match serialize e.2 with
    | none => st
    | some persistValue =>
      let w := setItem debug st.1 (getPersistHashKey persistKey e.1) persistValue
      (w.1, setAdd st.2.1 (.vStr e.1), st.2.2 ++ w.2)

/-- persist.ts `persistHash`: read the old key-set, write each
serializable entry of the event mapping under its per-entry key while
accumulating the key-set, then write the key-set back.  Only `JSON.parse`
of a corrupt stored key-set can throw (storage faults are caught by the
wrappers). -/
def persistHash (debug : Bool) (persistKey : String) (ev : CnPersistEvent) :
    Except Unit (StorageLike × List String) := do
  let g := getItem debug ev.storage persistKey
  let hashKeySet0 ← readHashKeySet g.1
  let folded := (entriesOf ev.newValue).foldl
    (persistHashStep debug persistKey ev.serialize) (ev.storage, hashKeySet0, g.2)
  let w := setItem debug folded.1 persistKey (jsonStringify (.vArr folded.2.1))
  .ok (w.1, folded.2.2 ++ w.2)

/-- One iteration of the entries loop of `persistHashReset`: as in
`persistHash`, but the key-set starts empty and every written entry id is
also discharged from the set of old entries awaiting deletion.  The
accumulator is (storage, key-set, old-keys-to-delete, console log). -/
def persistHashResetStep (debug : Bool) (persistKey : String) (serialize : CnStateSerializer)
    (st : StorageLike × List JValue × List JValue × List String) (e : String × JValue) :
    StorageLike × List JValue × List JValue × List String :=
  if e.2 = JValue.vFun then st
  else
    match serialize e.2 with
    | none => st
    | some persistValue =>
      let w := setItem debug st.1 (getPersistHashKey persistKey e.1) persistValue
      (w.1, setAdd st.2.1 (.vStr e.1),
        (if (JValue.vStr e.1) ∈ st.2.2.1 then setDelete st.2.2.1 (.vStr e.1) else st.2.2.1),
        st.2.2.2 ++ w.2)

/-- persist.ts `persistHashReset`: write the serializable entries of the
full new mapping, then delete the per-entry keys of the leftover old
entries with a *direct* `storage.removeItem` call (line 153 — not the
catching wrapper, so a throwing `removeItem` propagates), then write the
fresh key-set. -/
def persistHashReset (debug : Bool) (persistKey : String) (ev : CnPersistEvent) :
    Except Unit (StorageLike × List String) := do
  let g := getItem debug ev.storage persistKey
  let oldHashKeySetToDelete ← readHashKeySet g.1
  let folded := (entriesOf ev.newValue).foldl
    (persistHashResetStep debug persistKey ev.serialize) (ev.storage, [], oldHashKeySetToDelete, g.2)
  let storage2 ← folded.2.2.1.foldlM
    (fun st oldKey => rawRemoveItem st (getPersistHashKey persistKey (jsToString oldKey)))
    folded.1
  let w := setItem debug storage2 persistKey (jsonStringify (.vArr folded.2.1))
  .ok (w.1, folded.2.2.2 ++ w.2)

/-! ## persist.ts: the event buffer

`persistBuffer` is a plain object mapping storage keys to pending
events. -/

/-- The event buffer `persistBuffer : Record<string, CnPersistEvent>`. -/
abbrev PersistBuffer := List (String × CnPersistEvent)

/-- persist.ts `emitPersistEvent`:
`persistBuffer[persistKey] = { type, storage, newValue, serialize }`
(the debounced-flush call it then makes is scheduling, modelled by the
separate flush operation below). -/
def emitPersistEvent (type : CnPersistEventType) (storage : StorageLike)
    (persistKey : String) (newValue : JValue) (serialize : CnStateSerializer)
    (buf : PersistBuffer) : PersistBuffer :=
  objSet buf persistKey ⟨type, storage, newValue, serialize⟩

/-- persist.ts `emitPersistEventForHash` applied to a buffered event:
`(oldEvent.newValue as Record<string, unknown>)[hashKey] = newValue`
mutates the mapping held by the event in place.  (On a non-object
`newValue` the strict-mode property write is modelled as a no-op; the
pipeline only buffers object values under HASH keys.) -/
def emitPersistEventForHash (hashKey : String) (oldEvent : CnPersistEvent)
    (newValue : JValue) : CnPersistEvent :=
  { oldEvent with
    newValue :=
      match oldEvent.newValue with
      | .vObj fs => .vObj (objSet fs hashKey newValue)
      | other => other }

/-- persist.ts `produceHashLevelPersist`: the returned closure, applied
to `args = [entryValue, hashKey]`.  If the buffer already holds an event
for `persistKey` the entry is merged into that event in place; otherwise
a fresh HASH event with the one-entry mapping is emitted. -/
def produceHashLevelPersist (storage : StorageLike) (persistKey : String)
    (serialize : CnStateSerializer) (entryValue : JValue) (hashKey : String)
    (buf : PersistBuffer) : PersistBuffer :=
  match objGet buf persistKey with
  | some oldEvent =>
    objSet buf persistKey (emitPersistEventForHash hashKey oldEvent entryValue)
  | none =>
    emitPersistEvent .HASH storage persistKey (.vObj [(hashKey, entryValue)]) serialize buf

/-- The producer/consumer operations on the shared buffer: a state-level
emit (`emitPersistEvent` via `produceStateLevelPersist`), an entry-level
hash write (`produceHashLevelPersist`), and a completed flush
(`consumPersistEvent`, which processes the entries and then executes
`persistBuffer = ` fresh empty object). -/
inductive BufOp where
  | emit (type : CnPersistEventType) (storage : StorageLike) (persistKey : String)
      (newValue : JValue) (serialize : CnStateSerializer)
  | hashWrite (storage : StorageLike) (persistKey : String) (serialize : CnStateSerializer)
      (entryValue : JValue) (hashKey : String)
  | flush

/-- Effect of one buffer operation on the buffer. -/
def applyBufOp (buf : PersistBuffer) : BufOp → PersistBuffer
  | .emit t st k v s => emitPersistEvent t st k v s buf
  | .hashWrite st k s v hk => produceHashLevelPersist st k s v hk buf
  | .flush => []

/-- Run a sequence of buffer operations from a starting buffer. -/
def runBufOps (buf : PersistBuffer) (ops : List BufOp) : PersistBuffer :=
  ops.foldl applyBufOp buf

/-! ### The flush in small steps

persist.ts `consumPersistEvent` runs
`Object.entries(persistBuffer).forEach(dispatch); persistBuffer = ` a
fresh empty object.  `Object.entries` snapshots the entries when the
flush starts; the dispatch of each entry (`persistString` /
`persistHash` / `persistHashReset`, verified separately) may call back
into user code (the event serializer), which can synchronously call
`emitPersistEvent` on the same buffer.  The machine below makes that
interleaving explicit: `pending` is the unprocessed suffix of the
snapshot, `processed` the dispatched entries, `buffer` the live
`persistBuffer` object. -/

structure FlushState where
  buffer : PersistBuffer
  pending : PersistBuffer
  processed : PersistBuffer

/-- Entering `consumPersistEvent`: `Object.entries` snapshots the
buffer. -/
def startFlush (buf : PersistBuffer) : FlushState :=
  ⟨buf, buf, []⟩

/-- What can happen while the flush loop runs: dispatching the next
snapshot entry, or a reentrant producer call into `emitPersistEvent`. -/
inductive FlushEvt where
  | dispatchNext
  | reenter (type : CnPersistEventType) (storage : StorageLike) (persistKey : String)
      (newValue : JValue) (serialize : CnStateSerializer)

/-- One step of the flush interleaving. -/
def flushStep (fs : FlushState) : FlushEvt → FlushState
  | .dispatchNext =>
    match fs.pending with
    | [] => fs
    | e :: rest => { fs with pending := rest, processed := fs.processed ++ [e] }
  | .reenter t st k v s => { fs with buffer := emitPersistEvent t st k v s fs.buffer }

/-- Leaving `consumPersistEvent`: the remaining snapshot entries are
dispatched and then `persistBuffer` is replaced by a fresh empty object.
Returns the final buffer and the full list of dispatched entries. -/
def finishFlush (fs : FlushState) : PersistBuffer × PersistBuffer :=
  ([], fs.processed ++ fs.pending)

/-- persist.ts `consumPersistEvent` under an explicit interleaving of
reentrant producer calls. -/
def consumPersistEvent (buf : PersistBuffer) (evts : List FlushEvt) :
    PersistBuffer × PersistBuffer :=
  finishFlush (evts.foldl flushStep (startFlush buf))

/-! ## init.ts and restore.ts -/

/-- types.ts `CnStatePersistOptions.policy`: `'STRING' | 'HASH'`. -/
inductive CnPersistPolicy where
  | STRING
  | HASH
  deriving DecidableEq

/-- The live state container of one store (`storeState`), a mapping from
state key to value. -/
abbrev StoreState := List (String × JValue)

/-- restore.ts `restoreString` (option-syntax store, so the state value
is assigned directly rather than through a `Ref`). -/
def restoreString (stringValue : String) (deserialize : CnStateDeserializer)
    (stateKey : String) (storeState : StoreState) : StoreState :=
  match deserialize (some stringValue) with
  | some v => objSet storeState stateKey v
  | none => storeState

/-- restore.ts `restoreHash`: `JSON.parse` the stored key-set (a throw
on a corrupt string propagates), read each entry through the catching
`getItem` wrapper, deserialize (skipping null results), assemble the
mapping, and assign the post-handled mapping to the state. -/
def restoreHash (debug : Bool) (stringValue : String) (persistKey stateKey : String)
    (storage : StorageLike) (deserialize : CnStateDeserializer)
    (deserializePostHandler : JValue → JValue) (storeState : StoreState) :
    Except Unit StoreState :=
  match jsonParse stringValue with
  | some (.vArr hashKeys) =>
    let hashValue := hashKeys.foldl
      (fun hv hk =>
        let g := getItem debug storage (getPersistHashKey persistKey (jsToString hk))
        match g.1 with
        | some persistValue =>
          match deserialize (some persistValue) with
          | some v => objSet hv (jsToString hk) v
          | none => hv
        | none => hv)
      []
    .ok (objSet storeState stateKey (deserializePostHandler (.vObj hashValue)))
  | _ => .error ()

/-- restore.ts `restoreFromStoreValue`: dispatch on the state policy. -/
def restoreFromStoreValue (debug : Bool) (storageValue : String)
    (policy : CnPersistPolicy) (storage : StorageLike) (stateKey persistKey : String)
    (deserialize : CnStateDeserializer) (deserializePostHandler : JValue → JValue)
    (storeState : StoreState) : Except Unit StoreState :=
  match policy with
  | .STRING => .ok (restoreString storageValue deserialize stateKey storeState)
  | .HASH =>
    restoreHash debug storageValue persistKey stateKey storage deserialize
      deserializePostHandler storeState

/-- JavaScript truthiness of `string | null`. -/
def truthyStr : Option String → Bool
  | none => false
  | some s => s != ""

/-- init.ts `initPersistOrRestore`: read the stored value with a direct
`storage.getItem` call (line 123 — not the catching wrapper).  A falsy
result (absent *or* empty string) takes the first-run branch: if the
state holds a truthy initial value, emit a STRING or HASH_RESET event
for it; otherwise do nothing.  A truthy result takes the restore
branch. -/
def initPersistOrRestore (debug : Bool) (policy : CnPersistPolicy)
    (storage : StorageLike) (stateKey persistKey : String)
    (serialize : CnStateSerializer) (deserialize : CnStateDeserializer)
    (deserializePostHandler : JValue → JValue) (storeState : StoreState)
    (buf : PersistBuffer) : Except Unit (PersistBuffer × StoreState) := do
  let storageValue ← rawGetItem storage persistKey
  if truthyStr storageValue then
    match storageValue with
    | some sv => do
      let st2 ← restoreFromStoreValue debug sv policy storage stateKey persistKey
        deserialize deserializePostHandler storeState
      .ok (buf, st2)
    | none => .ok (buf, storeState)
  else
    match objGet storeState stateKey with
    | some initValue =>
      if truthy initValue then
        .ok (emitPersistEvent (if policy = .STRING then .STRING else .HASH_RESET)
          storage persistKey initValue serialize buf, storeState)
      else .ok (buf, storeState)
    | none => .ok (buf, storeState)

/-! ## Setup: contexts, registration and the per-store loop
(util.ts `produceStorePersistContext` / `produceStatePersistContext`,
init.ts `registerPersister`/`abstractRegisterPersister`, and the
`stateOptionsEntries.forEach` loop of plugin.ts) -/

/-- Per-state user options as read by `produceStatePersistContext`.
Its try/catch guards the reads of these user-supplied options (getters
behind the option proxy may throw); `faulty` abstracts options whose
read throws. -/
structure CnStatePersistOptions where
  policy : CnPersistPolicy
  serialize : CnStateSerializer
  deserialize : CnStateDeserializer
  deserializePostHandler : JValue → JValue
  faulty : Bool

/-- The per-state context assembled by `produceStatePersistContext`. -/
structure CnStatePersistContext where
  stateKey : String
  persistKey : String
  policy : CnPersistPolicy
  serialize : CnStateSerializer
  deserialize : CnStateDeserializer
  deserializePostHandler : JValue → JValue

/-- util.ts `produceStatePersistContext`: builds the per-state context;
a throw while reading the options is caught and null is returned, so the
caller skips only this state. -/
def produceStatePersistContext (stateKey persistKey : String)
    (opts : CnStatePersistOptions) : Option CnStatePersistContext :=
  if opts.faulty then none
  else
    some ⟨stateKey, persistKey, opts.policy, opts.serialize, opts.deserialize,
      opts.deserializePostHandler⟩

/-- init.ts naming convention for the entry-write action of a state. -/
def getHsetActionName (stateKey : String) : String :=
  "hsetAndPersist" ++ capitalize stateKey

/-- What `registerPersister` records for one state across the
registries. -/
structure Registration where
  stateKey : String
  actionName : Option String
  viaMutationObject : Bool

/-- init.ts `abstractRegisterPersister` (option-syntax store, so the
mutation target is the state value): a HASH-policy state with a
conforming `hsetAndPersist…` action registers the hash persister under
the action name; without one the function throws — a truthy state value
hits the `if (hashTargetObject)` guard at line 53/54 and throws the
"must have initial value" error, and a falsy one fails `isObject` and
throws the "must be object" error.  A STRING-policy state registers only
the state-level persister. -/
def abstractRegisterPersister (actions : List String) (stateKey : String)
    (policy : CnPersistPolicy) (hashTargetObject : JValue) :
    Except String Registration :=
  if policy = .HASH then
    if actions.contains (getHsetActionName stateKey) then
      .ok ⟨stateKey, some (getHsetActionName stateKey), false⟩
    else if truthy hashTargetObject then
      .error ("state [" ++ stateKey ++
        "] is set to HASH persist policy and has no Action with the hset name, it must have initial value")
    else if !isObject hashTargetObject then
      .error ("state [" ++ stateKey ++
        "] is set to HASH persist policy and has no Action with the hset name, it must be object")
    else .ok ⟨stateKey, none, true⟩
  else .ok ⟨stateKey, none, false⟩

/-- Accumulated effect of the per-store configuration loop. -/
structure StoreLoopState where
  registered : List Registration
  buffer : PersistBuffer
  storeState : StoreState

/-- plugin.ts `stateOptionsEntries.forEach` body, folded over the
configured states of one store: build the state context (null skips the
state and continues with the next), call `registerPersister` (whose
HASH-misconfiguration error is *not* caught in the loop, so it escapes
the `forEach` and the remaining entries are never configured), then run
`initPersistOrRestore` (whose throw likewise escapes).  The second
component is the escaped error, if any. -/
def configureStore (debug : Bool) (actions : List String) (storeKey : String)
    (storage : StorageLike) :
    List (String × CnStatePersistOptions) → StoreLoopState → StoreLoopState × Option String
  | [], st => (st, none)
  | (stateKey, opts) :: rest, st =>
    match produceStatePersistContext stateKey (getPersistKey storeKey stateKey) opts with
    | none => configureStore debug actions storeKey storage rest st
    | some ctx =>
      match abstractRegisterPersister actions ctx.stateKey ctx.policy
          ((objGet st.storeState ctx.stateKey).getD .vNull) with
      | .error msg => (st, some msg)
      | .ok reg =>
        match initPersistOrRestore debug ctx.policy storage ctx.stateKey ctx.persistKey
            ctx.serialize ctx.deserialize ctx.deserializePostHandler st.storeState
            st.buffer with
        | .error _ =>
          (⟨st.registered ++ [reg], st.buffer, st.storeState⟩,
            some "initPersistOrRestore threw")
        | .ok (buf2, state2) =>
          configureStore debug actions storeKey storage rest
            ⟨st.registered ++ [reg], buf2, state2⟩

/-- Store-level mixed options as read by `produceStorePersistContext`;
`faulty` abstracts option reads that throw inside its try/catch. -/
structure CnPersistOptions where
  key : String
  debug : Bool
  states : List (String × CnStatePersistOptions)
  faulty : Bool

/-- util.ts `produceStorePersistContext`: resolves the store context; a
throw is caught and null returned, making the plugin skip this store
only. -/
def produceStorePersistContext (opts : CnPersistOptions) :
    Option (String × Bool × List (String × CnStatePersistOptions)) :=
  if opts.faulty then none else some (opts.key, opts.debug, opts.states)

/-- One store as seen by the plugin callback. -/
structure StoreEntry where
  actions : List String
  storage : StorageLike
  storeState : StoreState
  opts : CnPersistOptions

/-- plugin.ts: the plugin callback for one store — a null store context
returns early (the store is skipped), otherwise the per-state loop
runs. -/
def pluginPerStore (store : StoreEntry) : Option (StoreLoopState × Option String) :=
  match produceStorePersistContext store.opts with
  | none => none
  | some (key, debug, states) =>
    some (configureStore debug store.actions key store.storage states
      ⟨[], [], store.storeState⟩)

/-- The plugin callback is invoked once per store; invocations are
independent. -/
def pluginAllStores (stores : List StoreEntry) :
    List (Option (StoreLoopState × Option String)) :=
  stores.map pluginPerStore

/-! ## Lemmas about the object semantics -/

theorem objGet_objSet_self (l : List (String × α)) (k : String) (v : α) :
    objGet (objSet l k v) k = some v := by
  induction l with
  | nil => simp [objSet, objGet]
  | cons h rest ih =>
    obtain ⟨k2, w⟩ := h
    by_cases hk : k2 = k
    · subst hk
      simp [objSet, objGet]
    · simp [objSet, objGet, hk, ih]

theorem objGet_objSet_other (l : List (String × α)) (k key : String) (v : α)
    (h : k ≠ key) : objGet (objSet l k v) key = objGet l key := by
  induction l with
  | nil => simp [objSet, objGet, h]
  | cons hd rest ih =>
    obtain ⟨k2, w⟩ := hd
    by_cases hk : k2 = k
    · subst hk
      simp [objSet, objGet, h]
    · simp only [objSet, if_neg hk]
      by_cases hk2 : k2 = key
      · simp [objGet, hk2]
      · simp [objGet, hk2, ih]

theorem objGet_objRemove_self (l : List (String × α)) (k : String) :
    objGet (objRemove l k) k = none := by
  induction l with
  | nil => simp [objRemove, objGet]
  | cons hd rest ih =>
    obtain ⟨k2, w⟩ := hd
    by_cases hk : k2 = k
    · subst hk
      simp [objRemove, ih]
    · simp [objRemove, objGet, hk, ih]

theorem objGet_objRemove_other (l : List (String × α)) (k key : String) (h : k ≠ key) :
    objGet (objRemove l k) key = objGet l key := by
  induction l with
  | nil => simp [objRemove]
  | cons hd rest ih =>
    obtain ⟨k2, w⟩ := hd
    by_cases hk : k2 = k
    · subst hk
      simp [objRemove, objGet, h, ih]
    · simp [objRemove, objGet, hk, ih]

theorem objSet_keys (l : List (String × α)) (k : String) (v : α) :
    (objSet l k v).map Prod.fst =
      if k ∈ l.map Prod.fst then l.map Prod.fst else l.map Prod.fst ++ [k] := by
  induction l with
  | nil => simp [objSet]
  | cons hd rest ih =>
    obtain ⟨k2, w⟩ := hd
    by_cases hk : k2 = k
    · subst hk
      simp [objSet]
    · simp only [objSet, if_neg hk, List.map_cons, ih]
      by_cases hmem : k ∈ rest.map Prod.fst
      · simp [hmem, Ne.symm hk]
      · simp [hmem, Ne.symm hk]

theorem objSet_keys_mem (l : List (String × α)) (k : String) (v : α)
    (h : k ∈ l.map Prod.fst) : (objSet l k v).map Prod.fst = l.map Prod.fst := by
  rw [objSet_keys, if_pos h]

theorem objSet_keys_nodup (l : List (String × α)) (k : String) (v : α)
    (h : (l.map Prod.fst).Nodup) : ((objSet l k v).map Prod.fst).Nodup := by
  rw [objSet_keys]
  by_cases hmem : k ∈ l.map Prod.fst
  · rwa [if_pos hmem]
  · rw [if_neg hmem]
    simp [List.nodup_append, h, hmem]

theorem objGet_mem_keys (l : List (String × α)) (key : String) (v : α)
    (h : objGet l key = some v) : key ∈ l.map Prod.fst := by
  induction l with
  | nil => simp [objGet] at h
  | cons hd rest ih =>
    obtain ⟨k2, w⟩ := hd
    by_cases hk : k2 = key
    · simp [hk]
    · simp only [objGet, if_neg hk] at h
      simp [ih h]

/-! ## C4: storage-key collisions -/

theorem getPersistKey_data (storeId stateName : String) :
    (getPersistKey storeId stateName).data =
      "cn-".data ++ storeId.data ++ "-".data ++ stateName.data := by
  simp [getPersistKey, String.data_append]

theorem getPersistHashKey_data (persistKey hashKey : String) :
    (getPersistHashKey persistKey hashKey).data =
      persistKey.data ++ "-".data ++ hashKey.data := by
  simp [getPersistHashKey, String.data_append]

/-- C4 counterexample input: the claim asserts the entry key of
(`"s"`, `"a"`, entry `"b"`) differs from every field key, but it equals
the field key of store `"s"`, state `"a-b"` (and of store `"s-a"`,
state `"b"`). -/
theorem c4_counterexample :
    getPersistHashKey (getPersistKey "s" "a") "b" = getPersistKey "s" "a-b" ∧
      getPersistHashKey (getPersistKey "s" "a") "b" = getPersistKey "s-a" "b" := by
  constructor <;> decide

/-- C4 (amended): the per-entry storage key never collides with a field
storage key as long as none of the store ids, state names and entry id
contain the separator character, counted here as `'-'`-freeness of the
five components. -/
theorem c4_no_collision_dashfree (storeId stateName entryId storeId2 stateName2 : String)
    (h1 : storeId.data.count '-' = 0) (h2 : stateName.data.count '-' = 0)
    (h3 : entryId.data.count '-' = 0) (h4 : storeId2.data.count '-' = 0)
    (h5 : stateName2.data.count '-' = 0) :
    getPersistHashKey (getPersistKey storeId stateName) entryId ≠
      getPersistKey storeId2 stateName2 := by
  intro h
  have hd := congrArg String.data h
  rw [getPersistHashKey_data, getPersistKey_data, getPersistKey_data] at hd
  have hc := congrArg (fun l => l.count '-') hd
  simp only [List.count_append] at hc
  have hcn : ("cn-".data).count '-' = 1 := by decide
  have hdash : ("-".data).count '-' = 1 := by decide
  rw [hcn, hdash, h1, h2, h3, h4, h5] at hc
  omega

/-- C4 witness: dash-free components give distinct keys. -/
theorem c4_no_collision_dashfree_witness :
    getPersistHashKey (getPersistKey "s" "a") "b" ≠ getPersistKey "t" "u" :=
  c4_no_collision_dashfree "s" "a" "b" "t" "u" (by decide) (by decide) (by decide)
    (by decide) (by decide)

/-! ## C7: default serializer round trip -/

/-- C7 counterexample input: `false` is JSON-safe but falsy, so the
default serializer emits the empty string and the default deserializer
maps it back to null, not to `false`. -/
theorem c7_counterexample :
    funFree (.vBool false) = true ∧
      DEFAULT_STATE_DESERIALIZER (DEFAULT_STATE_SERIALIZER (.vBool false)) = none := by
  constructor
  · decide
  · rfl

/-- C7 (amended): the default serializer/deserializer pair round-trips
on every *truthy* JSON-safe value (falsy values degrade to the empty
string and come back as null). -/
theorem c7_default_roundtrip_truthy (v : JValue) (hsafe : funFree v = true)
    (htruthy : truthy v = true) :
    DEFAULT_STATE_DESERIALIZER (DEFAULT_STATE_SERIALIZER v) = some v := by
  unfold DEFAULT_STATE_SERIALIZER DEFAULT_STATE_DESERIALIZER
  simp [htruthy, jsonStringify_ne_empty v, jsonParse_jsonStringify v hsafe]

/-- C7 witness: a concrete truthy JSON-safe value round-trips. -/
theorem c7_default_roundtrip_truthy_witness :
    DEFAULT_STATE_DESERIALIZER
        (DEFAULT_STATE_SERIALIZER (.vObj [("a", .vNum 3), ("b", .vArr [.vStr "x"])])) =
      some (.vObj [("a", .vNum 3), ("b", .vArr [.vStr "x"])]) :=
  c7_default_roundtrip_truthy _ (by decide) (by decide)

/-! ## C8: null-serialize skip -/

/-- C8: when the configured serializer returns the null sentinel for the
event's value, `persistString` performs no physical write for that key:
for every storage backend state `st` (whatever its contents and fault
behaviour), the storage contents after the flush are identical to the
storage contents before the event, and in fact the whole result is the
untouched backend with an empty log. -/
theorem c8_null_serialize_skips (debug : Bool) (persistKey : String)
    (st : StorageLike) (ty : CnPersistEventType) (newValue : JValue)
    (serialize : CnStateSerializer) (h : serialize newValue = none) :
    (persistString debug persistKey ⟨ty, st, newValue, serialize⟩).1.items = st.items ∧
      persistString debug persistKey ⟨ty, st, newValue, serialize⟩ = (st, []) := by
  unfold persistString
  simp [h]

/-- C8 witness: a concrete STRING event whose serializer opts out leaves a
populated backend untouched, contents and all. -/
theorem c8_null_serialize_skips_witness :
    (persistString true "cn-s-a"
          ⟨.STRING, ⟨[("k", "v")], fun _ => false, fun _ => false, fun _ => false⟩,
            .vNum 1, fun _ => none⟩).1.items = [("k", "v")] ∧
      persistString true "cn-s-a"
          ⟨.STRING, ⟨[("k", "v")], fun _ => false, fun _ => false, fun _ => false⟩,
            .vNum 1, fun _ => none⟩ =
        (⟨[("k", "v")], fun _ => false, fun _ => false, fun _ => false⟩, []) :=
  c8_null_serialize_skips true "cn-s-a" _ .STRING (.vNum 1) _ rfl

/-! ## C3: storage throws and the persistence core -/

/-- C3 failing input: a backend whose `removeItem` throws, a stored
key-set `["b"]` under the field key, and a HASH_RESET event replacing
the mapping by the empty one.  The stale entry `b` must be deleted, the
direct `storage.removeItem` call at persist.ts line 153 throws, and the
exception propagates out of `persistHashReset` — the claim said no throw
of `removeItem` escapes the persistence core. -/
theorem c3_removeitem_throw_escapes :
    persistHashReset false "cn-s-a"
        ⟨.HASH_RESET,
          ⟨[("cn-s-a", jsonStringify (.vArr [.vStr "b"]))], fun _ => false, fun _ => false,
            fun _ => true⟩,
          .vObj [], DEFAULT_STATE_SERIALIZER⟩ =
      .error () := by
  rfl

/-! ## C10: falsy values under the default serializer -/

/-- C10 counterexample input: the empty string is stored under the field
key (the persisted form of the falsy value `0`) and the field's initial
value is `0`, which is falsy — so, contrary to the claim's "the field's
initial value is persisted again instead", `initPersistOrRestore` emits
no event at all (and restores nothing): buffer and state are returned
unchanged. -/
theorem c10_counterexample :
    initPersistOrRestore false .STRING
        ⟨[("cn-s-a", "")], fun _ => false, fun _ => false, fun _ => false⟩
        "a" "cn-s-a" DEFAULT_STATE_SERIALIZER DEFAULT_STATE_DESERIALIZER
        DEFAULT_DESERIALIZE_POST_HANDLER [("a", .vNum 0)] [] =
      .ok ([], [("a", .vNum 0)]) := by
  rfl

/-- C10 (amended): (a) the default serializer maps every falsy value to
the empty string (not the null skip-sentinel); (b) `persistString`
therefore physically writes the empty string for a falsy value; (c) on
the next initialization a stored empty string fails the truthiness check
and is treated exactly like absent data — the field is not restored, and
the field's initial value is persisted again exactly when that initial
value is truthy (a falsy initial value emits nothing).  Falsy values
never survive a persist/restore cycle under the default pair. -/
theorem c10_falsy_values_lost :
    (∀ v : JValue, truthy v = false → DEFAULT_STATE_SERIALIZER v = some "") ∧
      (∀ (debug : Bool) (pk : String) (ev : CnPersistEvent),
        ev.serialize = DEFAULT_STATE_SERIALIZER → truthy ev.newValue = false →
        ev.storage.setThrows pk = false →
        (persistString debug pk ev).1.items = objSet ev.storage.items pk "") ∧
      (∀ (debug : Bool) (policy : CnPersistPolicy) (storage : StorageLike)
        (stateKey pk : String) (ser : CnStateSerializer) (deser : CnStateDeserializer)
        (post : JValue → JValue) (storeState : StoreState) (buf : PersistBuffer),
        (rawGetItem storage pk = .ok none ∨ rawGetItem storage pk = .ok (some "")) →
        initPersistOrRestore debug policy storage stateKey pk ser deser post storeState
            buf =
          .ok ((match objGet storeState stateKey with
                | some iv =>
                  if truthy iv then
                    emitPersistEvent (if policy = .STRING then .STRING else .HASH_RESET)
                      storage pk iv ser buf
                  else buf
                | none => buf), storeState)) := by
  refine ⟨?_, ?_, ?_⟩
  · intro v hv
    unfold DEFAULT_STATE_SERIALIZER
    rw [hv]
    simp
  · intro debug pk ev hser hfalsy hset
    unfold persistString
    rw [hser]
    unfold DEFAULT_STATE_SERIALIZER
    rw [hfalsy]
    simp only [Bool.false_eq_true, if_false]
    unfold setItem rawSetItem
    rw [hset]
    simp
  · intro debug policy storage stateKey pk ser deser post storeState buf h
    have hbind : ∀ (a : Option String)
        (f : Option String → Except Unit (PersistBuffer × StoreState)),
        (Except.ok a : Except Unit (Option String)) >>= f = f a := fun a f => rfl
    unfold initPersistOrRestore
    rcases h with h | h <;>
      · rw [h, hbind]
        simp only [truthyStr]
        cases hms : objGet storeState stateKey with
        | none => simp [hms]
        | some iv => by_cases hiv : truthy iv <;> simp [hms, hiv]

/-- C10 witness: instantiates all three parts — the falsy value `0`
serializes to the empty string, is physically written, and a stored
empty string with a truthy initial value `5` causes the initial value to
be emitted again. -/
theorem c10_falsy_values_lost_witness :
    DEFAULT_STATE_SERIALIZER (.vNum 0) = some "" ∧
      (persistString false "cn-s-a"
          ⟨.STRING, ⟨[], fun _ => false, fun _ => false, fun _ => false⟩, .vNum 0,
            DEFAULT_STATE_SERIALIZER⟩).1.items =
        objSet [] "cn-s-a" "" ∧
      initPersistOrRestore false .STRING
          ⟨[("cn-s-a", "")], fun _ => false, fun _ => false, fun _ => false⟩
          "a" "cn-s-a" DEFAULT_STATE_SERIALIZER DEFAULT_STATE_DESERIALIZER
          DEFAULT_DESERIALIZE_POST_HANDLER [("a", .vNum 5)] [] =
        .ok (emitPersistEvent .STRING
          ⟨[("cn-s-a", "")], fun _ => false, fun _ => false, fun _ => false⟩
          "cn-s-a" (.vNum 5) DEFAULT_STATE_SERIALIZER [], [("a", .vNum 5)]) :=
  ⟨c10_falsy_values_lost.1 (.vNum 0) (by decide),
    c10_falsy_values_lost.2.1 false "cn-s-a" _ rfl (by decide) rfl,
    (c10_falsy_values_lost.2.2 false .STRING
        ⟨[("cn-s-a", "")], fun _ => false, fun _ => false, fun _ => false⟩ "a" "cn-s-a"
        DEFAULT_STATE_SERIALIZER DEFAULT_STATE_DESERIALIZER
        DEFAULT_DESERIALIZE_POST_HANDLER [("a", .vNum 5)] [] (Or.inr rfl)).trans
      (by rfl)⟩

/-! ## C1: the buffer during a flush -/

/-- C1 counterexample input: one buffered event under `"k1"`, a flush
that dispatches it and then sees a reentrant emit for `"k2"` before the
flush completes.  The claim says the `"k2"` event lands in a fresh
disjoint buffer and is still pending after the flush; in the code it
lands in the same `persistBuffer` object, which the flush then resets to
an empty object, so after the flush no event is pending for `"k2"`. -/
theorem c1_counterexample :
    objGet
        (consumPersistEvent
          [("k1",
            ⟨.STRING, ⟨[], fun _ => false, fun _ => false, fun _ => false⟩, .vNum 1,
              fun _ => none⟩)]
          [.dispatchNext,
            .reenter .STRING ⟨[], fun _ => false, fun _ => false, fun _ => false⟩ "k2"
              (.vNum 5) (fun _ => none)]).1
        "k2" =
      none := by
  rfl

theorem flushStep_inv (evts : List FlushEvt) (fs : FlushState) :
    (evts.foldl flushStep fs).processed ++ (evts.foldl flushStep fs).pending =
      fs.processed ++ fs.pending := by
  induction evts generalizing fs with
  | nil => rfl
  | cons e evts ih =>
    rw [List.foldl_cons, ih]
    cases e with
    | dispatchNext =>
      cases hp : fs.pending with
      | nil => simp [flushStep, hp]
      | cons p rest => simp [flushStep, hp]
    | reenter t st k v s => simp [flushStep]

/-- C1 (amended): the flush iterates a snapshot of the entries taken
when it starts — whatever producer calls interleave, the dispatched
events are exactly the buffer contents at flush start (the iteration is
never corrupted) — but the buffer is reset to a fresh empty object only
*after* the iteration, so every event emitted while the flush is in
progress is dropped from the buffer, unprocessed, when the flush
completes. -/
theorem c1_flush_snapshot_and_loss (buf : PersistBuffer) (evts : List FlushEvt) :
    (consumPersistEvent buf evts).2 = buf ∧ (consumPersistEvent buf evts).1 = [] := by
  constructor
  · show (finishFlush _).2 = buf
    unfold finishFlush
    rw [flushStep_inv]
    rfl
  · rfl

/-! ## C2: one pending event per storage key -/

theorem applyBufOp_keys_nodup (buf : PersistBuffer) (op : BufOp)
    (h : (buf.map Prod.fst).Nodup) : ((applyBufOp buf op).map Prod.fst).Nodup := by
  cases op with
  | emit t st k v s =>
    simp only [applyBufOp, emitPersistEvent]
    exact objSet_keys_nodup _ _ _ h
  | hashWrite st k s v hk =>
    cases hg : objGet buf k with
    | some e =>
      simp only [applyBufOp, produceHashLevelPersist, hg]
      exact objSet_keys_nodup _ _ _ h
    | none =>
      simp only [applyBufOp, produceHashLevelPersist, hg, emitPersistEvent]
      exact objSet_keys_nodup _ _ _ h
  | flush => simp [applyBufOp]

theorem runBufOps_keys_nodup (ops : List BufOp) (buf : PersistBuffer)
    (h : (buf.map Prod.fst).Nodup) : ((runBufOps buf ops).map Prod.fst).Nodup := by
  induction ops generalizing buf with
  | nil => exact h
  | cons op ops ih => exact ih _ (applyBufOp_keys_nodup buf op h)

/-- C2: (1) starting from the empty buffer, every sequence of
emit / hash-write / flush operations leaves the buffer with pairwise
distinct storage keys — at most one pending event per key at every
point; (2) an emit for a key replaces whatever event was pending there
with the new event (last value wins); (3) a hash entry write to a key
with a pending event mutates that event's entry mapping in place —
the buffer is the old buffer with that one event updated, and its key
set is unchanged (no second event is inserted). -/
theorem c2_buffer_invariant :
    (∀ ops : List BufOp, ((runBufOps [] ops).map Prod.fst).Nodup) ∧
      (∀ (buf : PersistBuffer) (t : CnPersistEventType) (st : StorageLike) (k : String)
        (v : JValue) (s : CnStateSerializer),
        objGet (applyBufOp buf (.emit t st k v s)) k = some ⟨t, st, v, s⟩) ∧
      (∀ (buf : PersistBuffer) (st : StorageLike) (k : String) (s : CnStateSerializer)
        (v : JValue) (hk : String) (e : CnPersistEvent),
        objGet buf k = some e →
        applyBufOp buf (.hashWrite st k s v hk) =
            objSet buf k (emitPersistEventForHash hk e v) ∧
          (applyBufOp buf (.hashWrite st k s v hk)).map Prod.fst = buf.map Prod.fst) := by
  refine ⟨?_, ?_, ?_⟩
  · intro ops
    exact runBufOps_keys_nodup ops [] (by simp)
  · intro buf t st k v s
    simp only [applyBufOp, emitPersistEvent]
    exact objGet_objSet_self buf k _
  · intro buf st k s v hk e h
    constructor
    · simp only [applyBufOp, produceHashLevelPersist, h]
    · simp only [applyBufOp, produceHashLevelPersist, h]
      exact objSet_keys_mem buf k _ (objGet_mem_keys buf k e h)

/-- C2 witness: a concrete run — two hash writes to the same key then an
emit — exercises all three parts: the key set stays duplicate-free, the
emit replaces, and the second hash write merged into the first event's
mapping in place. -/
theorem c2_buffer_invariant_witness :
    ((runBufOps []
        [.hashWrite ⟨[], fun _ => false, fun _ => false, fun _ => false⟩ "cn-s-a"
            (fun _ => none) (.vNum 1) "a",
          .hashWrite ⟨[], fun _ => false, fun _ => false, fun _ => false⟩ "cn-s-a"
            (fun _ => none) (.vNum 2) "b",
          .emit .STRING ⟨[], fun _ => false, fun _ => false, fun _ => false⟩ "cn-s-b"
            (.vNum 3) (fun _ => none)]).map Prod.fst).Nodup ∧
      objGet
          (applyBufOp []
            (.emit .STRING ⟨[], fun _ => false, fun _ => false, fun _ => false⟩ "cn-s-b"
              (.vNum 3) (fun _ => none)))
          "cn-s-b" =
        some ⟨.STRING, ⟨[], fun _ => false, fun _ => false, fun _ => false⟩, .vNum 3,
          fun _ => none⟩ ∧
      applyBufOp
          [("cn-s-a",
            ⟨.HASH, ⟨[], fun _ => false, fun _ => false, fun _ => false⟩,
              .vObj [("a", .vNum 1)], fun _ => none⟩)]
          (.hashWrite ⟨[], fun _ => false, fun _ => false, fun _ => false⟩ "cn-s-a"
            (fun _ => none) (.vNum 2) "b") =
        objSet
          [("cn-s-a",
            ⟨.HASH, ⟨[], fun _ => false, fun _ => false, fun _ => false⟩,
              .vObj [("a", .vNum 1)], fun _ => none⟩)]
          "cn-s-a"
          (emitPersistEventForHash "b"
            ⟨.HASH, ⟨[], fun _ => false, fun _ => false, fun _ => false⟩,
              .vObj [("a", .vNum 1)], fun _ => none⟩
            (.vNum 2)) :=
  ⟨c2_buffer_invariant.1 _, c2_buffer_invariant.2.1 [] .STRING _ "cn-s-b" (.vNum 3) _,
    (c2_buffer_invariant.2.2
      [("cn-s-a",
        ⟨.HASH, ⟨[], fun _ => false, fun _ => false, fun _ => false⟩,
          .vObj [("a", .vNum 1)], fun _ => none⟩)]
      ⟨[], fun _ => false, fun _ => false, fun _ => false⟩ "cn-s-a" (fun _ => none)
      (.vNum 2) "b"
      ⟨.HASH, ⟨[], fun _ => false, fun _ => false, fun _ => false⟩,
        .vObj [("a", .vNum 1)], fun _ => none⟩
      rfl).1⟩

/-! ## C9: isolation of setup failures -/

/-- C9 counterexample input: a store whose first configured state is a
HASH-policy field without the conforming `hsetAndPersistH` action
(`abstractRegisterPersister` raises its explicit error for every such
field) followed by a well-configured STRING field.  The error escapes
the `stateOptionsEntries.forEach` loop, so the STRING field is never
registered — contrary to the claim that no misconfigured field prevents
the remaining fields of the same store from being registered. -/
theorem c9_counterexample :
    (configureStore false [] "store" ⟨[], fun _ => false, fun _ => false, fun _ => false⟩
          [("h", ⟨.HASH, DEFAULT_STATE_SERIALIZER, DEFAULT_STATE_DESERIALIZER,
            DEFAULT_DESERIALIZE_POST_HANDLER, false⟩),
            ("s", ⟨.STRING, DEFAULT_STATE_SERIALIZER, DEFAULT_STATE_DESERIALIZER,
              DEFAULT_DESERIALIZE_POST_HANDLER, false⟩)]
          ⟨[], [], [("h", .vObj [("x", .vNum 1)]), ("s", .vNum 2)]⟩).1.registered =
        [] ∧
      ((configureStore false [] "store" ⟨[], fun _ => false, fun _ => false, fun _ => false⟩
          [("h", ⟨.HASH, DEFAULT_STATE_SERIALIZER, DEFAULT_STATE_DESERIALIZER,
            DEFAULT_DESERIALIZE_POST_HANDLER, false⟩),
            ("s", ⟨.STRING, DEFAULT_STATE_SERIALIZER, DEFAULT_STATE_DESERIALIZER,
              DEFAULT_DESERIALIZE_POST_HANDLER, false⟩)]
          ⟨[], [], [("h", .vObj [("x", .vNum 1)]), ("s", .vNum 2)]⟩).2).isSome =
        true := by
  constructor
  · rfl
  · rfl

theorem falsy_not_isObject (v : JValue) (h : truthy v = false) : isObject v = false := by
  cases v <;> simp_all [truthy, isObject]

/-- C9 (amended): (a) a state whose persistence context creation throws
is skipped — `produceStatePersistContext` returns null and the loop
continues with the remaining states unchanged; (b) a store whose store
context creation throws is skipped — the plugin callback returns early
for that store and every other store is configured independently;
(c) but the explicit error raised for a misconfigured HASH-policy field
(no conforming hset action) is *not* caught by the per-field loop: it
escapes the `forEach`, so the store's remaining fields are never
configured (the loop stops with the registrations made so far). -/
theorem c9_setup_isolation :
    (∀ (debug : Bool) (actions : List String) (storeKey : String) (storage : StorageLike)
      (stateKey : String) (opts : CnStatePersistOptions)
      (rest : List (String × CnStatePersistOptions)) (st : StoreLoopState),
      opts.faulty = true →
      configureStore debug actions storeKey storage ((stateKey, opts) :: rest) st =
        configureStore debug actions storeKey storage rest st) ∧
      (∀ (pre : List StoreEntry) (s : StoreEntry) (post : List StoreEntry),
        s.opts.faulty = true →
        pluginAllStores (pre ++ s :: post) =
          pluginAllStores pre ++ none :: pluginAllStores post) ∧
      (∀ (debug : Bool) (actions : List String) (storeKey : String) (storage : StorageLike)
        (stateKey : String) (opts : CnStatePersistOptions)
        (rest : List (String × CnStatePersistOptions)) (st : StoreLoopState),
        opts.faulty = false → opts.policy = .HASH →
        actions.contains (getHsetActionName stateKey) = false →
        ∃ msg, configureStore debug actions storeKey storage ((stateKey, opts) :: rest) st =
          (st, some msg)) := by
  refine ⟨?_, ?_, ?_⟩
  · intro debug actions storeKey storage stateKey opts rest st hf
    simp [configureStore, produceStatePersistContext, hf]
  · intro pre s post hf
    simp only [pluginAllStores, List.map_append, List.map_cons]
    simp [pluginPerStore, produceStorePersistContext, hf]
  · intro debug actions storeKey storage stateKey opts rest st hf hpol hact
    have hmem : getHsetActionName stateKey ∉ actions := by simpa using hact
    have hreg : ∃ msg, abstractRegisterPersister actions stateKey opts.policy
        ((objGet st.storeState stateKey).getD .vNull) = .error msg := by
      cases htr : truthy ((objGet st.storeState stateKey).getD .vNull) with
      | true =>
        refine ⟨"state [" ++ stateKey ++
          "] is set to HASH persist policy and has no Action with the hset name, it must have initial value", ?_⟩
        simp [abstractRegisterPersister, hpol, hmem, htr]
      | false =>
        refine ⟨"state [" ++ stateKey ++
          "] is set to HASH persist policy and has no Action with the hset name, it must be object", ?_⟩
        simp [abstractRegisterPersister, hpol, hmem, htr, falsy_not_isObject _ htr]
    obtain ⟨msg, hmsg⟩ := hreg
    exact ⟨msg, by simp [configureStore, produceStatePersistContext, hf, hmsg]⟩

/-- C9 witness: a faulty state is skipped (the loop result equals the
loop on the remaining entries), a faulty store is skipped while its
neighbours are configured, and a HASH field without its action aborts
the loop with the partial state. -/
theorem c9_setup_isolation_witness :
    (configureStore false [] "store" ⟨[], fun _ => false, fun _ => false, fun _ => false⟩
        [("bad", ⟨.STRING, DEFAULT_STATE_SERIALIZER, DEFAULT_STATE_DESERIALIZER,
          DEFAULT_DESERIALIZE_POST_HANDLER, true⟩),
          ("s", ⟨.STRING, DEFAULT_STATE_SERIALIZER, DEFAULT_STATE_DESERIALIZER,
            DEFAULT_DESERIALIZE_POST_HANDLER, false⟩)]
        ⟨[], [], [("s", .vNum 2)]⟩ =
      configureStore false [] "store" ⟨[], fun _ => false, fun _ => false, fun _ => false⟩
        [("s", ⟨.STRING, DEFAULT_STATE_SERIALIZER, DEFAULT_STATE_DESERIALIZER,
          DEFAULT_DESERIALIZE_POST_HANDLER, false⟩)]
        ⟨[], [], [("s", .vNum 2)]⟩) ∧
      pluginAllStores
          ([] ++ ⟨[], ⟨[], fun _ => false, fun _ => false, fun _ => false⟩, [],
            ⟨"k", false, [], true⟩⟩ :: []) =
        pluginAllStores [] ++ none :: pluginAllStores [] ∧
      ∃ msg,
        configureStore false [] "store"
            ⟨[], fun _ => false, fun _ => false, fun _ => false⟩
            [("h", ⟨.HASH, DEFAULT_STATE_SERIALIZER, DEFAULT_STATE_DESERIALIZER,
              DEFAULT_DESERIALIZE_POST_HANDLER, false⟩),
              ("s", ⟨.STRING, DEFAULT_STATE_SERIALIZER, DEFAULT_STATE_DESERIALIZER,
                DEFAULT_DESERIALIZE_POST_HANDLER, false⟩)]
            ⟨[], [], [("h", .vObj [("x", .vNum 1)]), ("s", .vNum 2)]⟩ =
          (⟨[], [], [("h", .vObj [("x", .vNum 1)]), ("s", .vNum 2)]⟩, some msg) :=
  ⟨c9_setup_isolation.1 false [] "store" _ "bad" _ _ _ rfl,
    c9_setup_isolation.2.1 [] _ [] rfl,
    c9_setup_isolation.2.2 false [] "store" _ "h" _ _ _ rfl rfl rfl⟩

/-! ## C5 / C6 infrastructure: characterising the hash write policies -/

/-- The entries of an event mapping that the hash policies physically
write: non-function values whose serialization is non-null, paired with
the serialized string, in mapping order. -/
def writtenEntries (serialize : CnStateSerializer) (fields : List (String × JValue)) :
    List (String × String) :=
  fields.filterMap (fun e =>
    if e.2 = JValue.vFun then none
    else
      match serialize e.2 with
      | none => none
      | some s => some (e.1, s))

/-- The entry ids the hash policies write. -/
def writtenKeys (serialize : CnStateSerializer) (fields : List (String × JValue)) :
    List String :=
  (writtenEntries serialize fields).map Prod.fst

/-- Apply a list of writes to stored items, in order. -/
def applyWrites (items : List (String × String)) (ws : List (String × String)) :
    List (String × String) :=
  ws.foldl (fun it w => objSet it w.1 w.2) items

theorem applyWrites_nil (items : List (String × String)) : applyWrites items [] = items :=
  rfl

theorem applyWrites_cons (items : List (String × String)) (w : String × String)
    (ws : List (String × String)) :
    applyWrites items (w :: ws) = applyWrites (objSet items w.1 w.2) ws :=
  rfl

theorem applyWrites_lookup_absent (ws : List (String × String))
    (items : List (String × String)) (key : String) (h : key ∉ ws.map Prod.fst) :
    objGet (applyWrites items ws) key = objGet items key := by
  induction ws generalizing items with
  | nil => rfl
  | cons w ws ih =>
    simp only [List.map_cons, List.mem_cons, not_or] at h
    rw [applyWrites_cons, ih _ h.2, objGet_objSet_other _ _ _ _ (fun he => h.1 he.symm)]

theorem applyWrites_lookup_mem (ws : List (String × String))
    (items : List (String × String)) (key : String) (v : String)
    (hnd : (ws.map Prod.fst).Nodup) (h : (key, v) ∈ ws) :
    objGet (applyWrites items ws) key = some v := by
  induction ws generalizing items with
  | nil => simp at h
  | cons w ws ih =>
    simp only [List.map_cons, List.nodup_cons] at hnd
    rcases List.mem_cons.mp h with h1 | h1
    · have hk : w.1 = key := by rw [← h1]
      have hkeys : key ∉ ws.map Prod.fst := hk ▸ hnd.1
      rw [applyWrites_cons, applyWrites_lookup_absent ws _ key hkeys, hk,
        objGet_objSet_self]
      rw [← h1]
    · exact applyWrites_cons items w ws ▸ ih _ hnd.2 h1

theorem objSet_defined (l : List (String × α)) (k : String) (v : α) (key : String)
    (h : ∃ w, objGet l key = some w) : ∃ w, objGet (objSet l k v) key = some w := by
  by_cases hk : k = key
  · subst hk
    exact ⟨v, objGet_objSet_self l k v⟩
  · rw [objGet_objSet_other l k key v hk]
    exact h

theorem applyWrites_defined (ws : List (String × String)) (items : List (String × String))
    (key : String) (h : ∃ w, objGet items key = some w) :
    ∃ w, objGet (applyWrites items ws) key = some w := by
  induction ws generalizing items with
  | nil => exact h
  | cons w ws ih => exact ih _ (objSet_defined _ _ _ _ h)

theorem foldl_setAdd_nodup (xs : List JValue) (acc : List JValue) (hnd : xs.Nodup) :
    xs.foldl setAdd acc = acc ++ xs.filter (fun x => decide (x ∉ acc)) := by
  induction xs generalizing acc with
  | nil => simp
  | cons x xs ih =>
    simp only [List.nodup_cons] at hnd
    rw [List.foldl_cons]
    by_cases hmem : x ∈ acc
    · have hs : setAdd acc x = acc := by simp [setAdd, hmem]
      rw [hs, ih _ hnd.2]
      simp [List.filter_cons, hmem]
    · have hs : setAdd acc x = acc ++ [x] := by simp [setAdd, hmem]
      rw [hs, ih _ hnd.2]
      have hfeq : xs.filter (fun y => decide (y ∉ acc ++ [x])) =
          xs.filter (fun y => decide (y ∉ acc)) := by
        apply List.filter_congr
        intro y hy
        have hyx : y ≠ x := fun he => hnd.1 (he ▸ hy)
        simp [hyx, List.mem_append]
      rw [hfeq]
      simp [List.filter_cons, hmem]

theorem writtenKeys_sublist (serialize : CnStateSerializer)
    (fields : List (String × JValue)) :
    List.Sublist (writtenKeys serialize fields) (fields.map Prod.fst) := by
  induction fields with
  | nil => simp [writtenKeys, writtenEntries]
  | cons e fields ih =>
    simp only [writtenKeys, writtenEntries, List.filterMap_cons, List.map_cons]
    by_cases hf : e.2 = JValue.vFun
    · simp only [if_pos hf]
      exact ih.cons _
    · simp only [if_neg hf]
      cases hs : serialize e.2 with
      | none => exact ih.cons _
      | some s =>
        simp only [List.map_cons]
        exact ih.cons₂ _

theorem writtenKeys_nodup (serialize : CnStateSerializer) (fields : List (String × JValue))
    (hnd : (fields.map Prod.fst).Nodup) : (writtenKeys serialize fields).Nodup :=
  hnd.sublist (writtenKeys_sublist serialize fields)

theorem string_ext (a b : String) (h : a.data = b.data) : a = b := by
  cases a
  cases b
  exact congrArg String.mk h

theorem getPersistHashKey_inj (pk : String) (a b : String)
    (h : getPersistHashKey pk a = getPersistHashKey pk b) : a = b := by
  have hd := congrArg String.data h
  rw [getPersistHashKey_data, getPersistHashKey_data, List.append_assoc,
    List.append_assoc] at hd
  exact string_ext a b (List.append_cancel_left (List.append_cancel_left hd))

theorem getPersistHashKey_ne_self (pk k : String) : getPersistHashKey pk k ≠ pk := by
  intro h
  have hd := congrArg String.data h
  rw [getPersistHashKey_data] at hd
  have hl := congrArg List.length hd
  simp only [List.length_append, List.length_singleton] at hl
  omega

/-- `setItem` on a backend that does not throw for the key: the write
happens, nothing is logged. -/
theorem setItem_benign (debug : Bool) (st : StorageLike) (k v : String)
    (h : st.setThrows k = false) :
    setItem debug st k v = ({ st with items := objSet st.items k v }, []) := by
  unfold setItem rawSetItem
  rw [h]
  simp

theorem except_ok_bind (a : α) (f : α → Except Unit β) :
    (Except.ok a : Except Unit α) >>= f = f a :=
  rfl

theorem vStr_injective : Function.Injective JValue.vStr := by
  intro a b h
  injection h

/-- The entries loop of `persistHash` on a non-throwing backend: the
entry writes land in order, the key-set accumulates the written entry
ids, nothing is logged, and the rest of the backend is untouched. -/
theorem persistHash_fold (debug : Bool) (pk : String) (ser : CnStateSerializer)
    (fields : List (String × JValue)) :
    ∀ (st0 : StorageLike) (ks0 : List JValue) (lg0 : List String),
    (∀ k, st0.setThrows k = false) →
    fields.foldl (persistHashStep debug pk ser) (st0, ks0, lg0) =
      ({ st0 with
          items := applyWrites st0.items
            ((writtenEntries ser fields).map (fun e => (getPersistHashKey pk e.1, e.2))) },
        ((writtenKeys ser fields).map JValue.vStr).foldl setAdd ks0, lg0) := by
  induction fields with
  | nil =>
    intro st0 ks0 lg0 hset
    rfl
  | cons e fields ih =>
    intro st0 ks0 lg0 hset
    rw [List.foldl_cons]
    by_cases hf : e.2 = JValue.vFun
    · have hstep : persistHashStep debug pk ser (st0, ks0, lg0) e = (st0, ks0, lg0) := by
        simp [persistHashStep, hf]
      rw [hstep, ih st0 ks0 lg0 hset]
      simp [writtenEntries, writtenKeys, List.filterMap_cons, hf]
    · cases hs : ser e.2 with
      | none =>
        have hstep : persistHashStep debug pk ser (st0, ks0, lg0) e = (st0, ks0, lg0) := by
          simp [persistHashStep, hf, hs]
        rw [hstep, ih st0 ks0 lg0 hset]
        simp [writtenEntries, writtenKeys, List.filterMap_cons, hf, hs]
      | some s =>
        have hstep : persistHashStep debug pk ser (st0, ks0, lg0) e =
            ({ st0 with items := objSet st0.items (getPersistHashKey pk e.1) s },
              setAdd ks0 (.vStr e.1), lg0 ++ []) := by
          simp [persistHashStep, hf, hs, setItem_benign debug st0 _ s (hset _)]
        rw [hstep, ih ({ st0 with items := objSet st0.items (getPersistHashKey pk e.1) s })
          (setAdd ks0 (.vStr e.1)) (lg0 ++ []) hset]
        simp [writtenEntries, writtenKeys, List.filterMap_cons, hf, hs, applyWrites_cons]

/-- C6: flushing a HASH event on a non-throwing backend is purely
additive — `persistHash` (which contains no `removeItem` call) returns
successfully with: (i) every key stored before still stored after;
(ii) the key-set written back under the field key being exactly the old
key-set extended by the newly written entry ids (a superset of the old
one, stated in (iii)); and (iv) each non-function entry of the mapping
whose serialization is non-null stored under its per-entry key. -/
theorem c6_hash_additive (debug : Bool) (pk : String) (ev : CnPersistEvent)
    (fields : List (String × JValue)) (oldSet : List JValue)
    (hobj : ev.newValue = .vObj fields) (hnd : (fields.map Prod.fst).Nodup)
    (hold : readHashKeySet (getItem debug ev.storage pk).1 = .ok oldSet)
    (hset : ∀ k, ev.storage.setThrows k = false) :
    ∃ st2 log, persistHash debug pk ev = .ok (st2, log) ∧
      (∀ key v, objGet ev.storage.items key = some v →
        ∃ w, objGet st2.items key = some w) ∧
      objGet st2.items pk = some (jsonStringify (.vArr
        (oldSet ++ ((writtenKeys ev.serialize fields).map JValue.vStr).filter
          (fun x => decide (x ∉ oldSet))))) ∧
      (∀ x ∈ oldSet,
        x ∈ oldSet ++ ((writtenKeys ev.serialize fields).map JValue.vStr).filter
          (fun x => decide (x ∉ oldSet))) ∧
      (∀ e ∈ writtenEntries ev.serialize fields,
        objGet st2.items (getPersistHashKey pk e.1) = some e.2) := by
  have hwnd : ((writtenKeys ev.serialize fields).map JValue.vStr).Nodup :=
    (writtenKeys_nodup ev.serialize fields hnd).map vStr_injective
  have hksfold : ((writtenKeys ev.serialize fields).map JValue.vStr).foldl setAdd oldSet =
      oldSet ++ ((writtenKeys ev.serialize fields).map JValue.vStr).filter
        (fun x => decide (x ∉ oldSet)) :=
    foldl_setAdd_nodup _ oldSet hwnd
  have hrun : persistHash debug pk ev =
      .ok (({ ev.storage with
          items := objSet
            (applyWrites ev.storage.items
              ((writtenEntries ev.serialize fields).map
                (fun e => (getPersistHashKey pk e.1, e.2))))
            pk
            (jsonStringify (.vArr
              (oldSet ++ ((writtenKeys ev.serialize fields).map JValue.vStr).filter
                (fun x => decide (x ∉ oldSet))))) }),
        (getItem debug ev.storage pk).2 ++ []) := by
    unfold persistHash
    simp only [hold, except_ok_bind, hobj, entriesOf]
    rw [persistHash_fold debug pk ev.serialize fields ev.storage oldSet
      (getItem debug ev.storage pk).2 hset]
    simp only [hksfold]
    rw [setItem_benign debug
      ({ ev.storage with
        items := applyWrites ev.storage.items
          ((writtenEntries ev.serialize fields).map
            (fun e => (getPersistHashKey pk e.1, e.2))) })
      pk
      (jsonStringify (.vArr
        (oldSet ++ ((writtenKeys ev.serialize fields).map JValue.vStr).filter
          (fun x => decide (x ∉ oldSet)))))
      (hset pk)]
  refine ⟨_, _, hrun, ?_, ?_, ?_, ?_⟩
  · intro key v hv
    exact objSet_defined _ _ _ _ (applyWrites_defined _ _ _ ⟨v, hv⟩)
  · exact objGet_objSet_self _ _ _
  · intro x hx
    exact List.mem_append_left _ hx
  · intro e he
    have hne : getPersistHashKey pk e.1 ≠ pk := getPersistHashKey_ne_self pk e.1
    rw [objGet_objSet_other _ _ _ _ (fun h => hne h.symm)]
    apply applyWrites_lookup_mem
    · rw [List.map_map]
      have : (Prod.fst ∘ fun e : String × String => (getPersistHashKey pk e.1, e.2)) =
          (fun e : String × String => getPersistHashKey pk e.1) := rfl
      rw [this]
      have hinj : Function.Injective (getPersistHashKey pk) := fun a b h =>
        getPersistHashKey_inj pk a b h
      have := (writtenKeys_nodup ev.serialize fields hnd).map
        (f := fun k => getPersistHashKey pk k) (fun a b h => getPersistHashKey_inj pk a b h)
      simpa [writtenKeys, List.map_map] using this
    · exact List.mem_map.mpr ⟨e, he, rfl⟩

/-- C6 witness: writing the merged mapping with entries `a` and `b` to
an empty backend stores both entries individually and the key-set
`["a","b"]`. -/
theorem c6_hash_additive_witness :
    ∃ st2 log,
      persistHash false "cn-s-m"
          ⟨.HASH, ⟨[], fun _ => false, fun _ => false, fun _ => false⟩,
            .vObj [("a", .vNum 1), ("b", .vNum 2)], DEFAULT_STATE_SERIALIZER⟩ =
        .ok (st2, log) ∧
      (∀ key v,
        objGet (⟨[], fun _ => false, fun _ => false, fun _ => false⟩ :
          StorageLike).items key = some v → ∃ w, objGet st2.items key = some w) ∧
      objGet st2.items "cn-s-m" = some (jsonStringify (.vArr
        (([] : List JValue) ++
          ((writtenKeys DEFAULT_STATE_SERIALIZER [("a", .vNum 1), ("b", .vNum 2)]).map
            JValue.vStr).filter (fun x => decide (x ∉ ([] : List JValue)))))) ∧
      (∀ x ∈ ([] : List JValue),
        x ∈ ([] : List JValue) ++
          ((writtenKeys DEFAULT_STATE_SERIALIZER [("a", .vNum 1), ("b", .vNum 2)]).map
            JValue.vStr).filter (fun x => decide (x ∉ ([] : List JValue)))) ∧
      (∀ e ∈ writtenEntries DEFAULT_STATE_SERIALIZER [("a", .vNum 1), ("b", .vNum 2)],
        objGet st2.items (getPersistHashKey "cn-s-m" e.1) = some e.2) :=
  c6_hash_additive false "cn-s-m"
    ⟨.HASH, ⟨[], fun _ => false, fun _ => false, fun _ => false⟩,
      .vObj [("a", .vNum 1), ("b", .vNum 2)], DEFAULT_STATE_SERIALIZER⟩
    [("a", .vNum 1), ("b", .vNum 2)] [] rfl (by decide) rfl (fun _ => rfl)

/-! ### C5: the reset loop and the removal phase -/

theorem setDelete_cond (del : List JValue) (x : JValue) :
    (if x ∈ del then setDelete del x else del) =
      del.filter (fun y => decide (y ≠ x)) := by
  by_cases hm : x ∈ del
  · rw [if_pos hm]
    rfl
  · rw [if_neg hm, eq_comm, List.filter_eq_self]
    intro a ha
    simp only [decide_eq_true_eq]
    exact fun he => hm (he ▸ ha)

theorem writtenEntries_skip_fun (ser : CnStateSerializer) (e : String × JValue)
    (fields : List (String × JValue)) (hf : e.2 = JValue.vFun) :
    writtenEntries ser (e :: fields) = writtenEntries ser fields := by
  simp [writtenEntries, List.filterMap_cons, hf]

theorem writtenEntries_skip_null (ser : CnStateSerializer) (e : String × JValue)
    (fields : List (String × JValue)) (hf : ¬ e.2 = JValue.vFun) (hs : ser e.2 = none) :
    writtenEntries ser (e :: fields) = writtenEntries ser fields := by
  simp [writtenEntries, List.filterMap_cons, hf, hs]

theorem writtenEntries_write (ser : CnStateSerializer) (e : String × JValue)
    (fields : List (String × JValue)) (s : String) (hf : ¬ e.2 = JValue.vFun)
    (hs : ser e.2 = some s) :
    writtenEntries ser (e :: fields) = (e.1, s) :: writtenEntries ser fields := by
  simp [writtenEntries, List.filterMap_cons, hf, hs]

theorem writtenKeys_skip_fun (ser : CnStateSerializer) (e : String × JValue)
    (fields : List (String × JValue)) (hf : e.2 = JValue.vFun) :
    writtenKeys ser (e :: fields) = writtenKeys ser fields := by
  simp [writtenKeys, writtenEntries_skip_fun ser e fields hf]

theorem writtenKeys_skip_null (ser : CnStateSerializer) (e : String × JValue)
    (fields : List (String × JValue)) (hf : ¬ e.2 = JValue.vFun) (hs : ser e.2 = none) :
    writtenKeys ser (e :: fields) = writtenKeys ser fields := by
  simp [writtenKeys, writtenEntries_skip_null ser e fields hf hs]

theorem writtenKeys_write (ser : CnStateSerializer) (e : String × JValue)
    (fields : List (String × JValue)) (s : String) (hf : ¬ e.2 = JValue.vFun)
    (hs : ser e.2 = some s) :
    writtenKeys ser (e :: fields) = e.1 :: writtenKeys ser fields := by
  simp [writtenKeys, writtenEntries_write ser e fields s hf hs]

/-- The entries loop of `persistHashReset` on a non-throwing backend:
entry writes land in order, the fresh key-set accumulates the written
entry ids, and the written ids are discharged from the set of old keys
awaiting deletion. -/
theorem persistHashReset_fold (debug : Bool) (pk : String) (ser : CnStateSerializer)
    (fields : List (String × JValue)) :
    ∀ (st0 : StorageLike) (ks0 del0 : List JValue) (lg0 : List String),
    (∀ k, st0.setThrows k = false) →
    fields.foldl (persistHashResetStep debug pk ser) (st0, ks0, del0, lg0) =
      ({ st0 with
          items := applyWrites st0.items
            ((writtenEntries ser fields).map (fun e => (getPersistHashKey pk e.1, e.2))) },
        ((writtenKeys ser fields).map JValue.vStr).foldl setAdd ks0,
        del0.filter (fun d => decide (d ∉ (writtenKeys ser fields).map JValue.vStr)),
        lg0) := by
  induction fields with
  | nil =>
    intro st0 ks0 del0 lg0 hset
    simp only [List.foldl_nil, writtenEntries, writtenKeys, List.filterMap_nil,
      List.map_nil, applyWrites_nil]
    have hfe : del0.filter (fun d => decide (d ∉ ([] : List JValue))) = del0 :=
      List.filter_eq_self.mpr (by simp)
    rw [hfe]
  | cons e fields ih =>
    intro st0 ks0 del0 lg0 hset
    rw [List.foldl_cons]
    by_cases hf : e.2 = JValue.vFun
    · have hstep : persistHashResetStep debug pk ser (st0, ks0, del0, lg0) e =
          (st0, ks0, del0, lg0) := by
        simp [persistHashResetStep, hf]
      rw [hstep, ih st0 ks0 del0 lg0 hset, writtenEntries_skip_fun ser e fields hf,
        writtenKeys_skip_fun ser e fields hf]
    · cases hs : ser e.2 with
      | none =>
        have hstep : persistHashResetStep debug pk ser (st0, ks0, del0, lg0) e =
            (st0, ks0, del0, lg0) := by
          simp [persistHashResetStep, hf, hs]
        rw [hstep, ih st0 ks0 del0 lg0 hset, writtenEntries_skip_null ser e fields hf hs,
          writtenKeys_skip_null ser e fields hf hs]
      | some s =>
        have hstep : persistHashResetStep debug pk ser (st0, ks0, del0, lg0) e =
            ({ st0 with items := objSet st0.items (getPersistHashKey pk e.1) s },
              setAdd ks0 (.vStr e.1), del0.filter (fun y => decide (y ≠ JValue.vStr e.1)),
              lg0 ++ []) := by
          simp only [persistHashResetStep, hf, hs,
            setItem_benign debug st0 _ s (hset _), setDelete_cond]
          rfl
        rw [hstep, ih ({ st0 with items := objSet st0.items (getPersistHashKey pk e.1) s })
          (setAdd ks0 (.vStr e.1)) (del0.filter (fun y => decide (y ≠ JValue.vStr e.1)))
          (lg0 ++ []) hset]
        have hff : (del0.filter (fun y => decide (y ≠ JValue.vStr e.1))).filter
            (fun d => decide (d ∉ (writtenKeys ser fields).map JValue.vStr)) =
            del0.filter
              (fun d => decide (d ∉ (writtenKeys ser (e :: fields)).map JValue.vStr)) := by
          rw [List.filter_filter]
          apply List.filter_congr
          intro y hy
          rw [writtenKeys_write ser e fields s hf hs]
          by_cases h1 : y = JValue.vStr e.1 <;>
            by_cases h2 : y ∈ (writtenKeys ser fields).map JValue.vStr <;>
              simp [h1, h2]
        rw [hff, writtenEntries_write ser e fields s hf hs,
          writtenKeys_write ser e fields s hf hs]
        simp [applyWrites_cons]

/-- The stale-entry removal loop of `persistHashReset` on a backend
whose `removeItem` does not throw. -/
theorem removal_foldlM (pk : String) (del : List JValue) :
    ∀ (st : StorageLike), (∀ k, st.removeThrows k = false) →
    del.foldlM (fun s k => rawRemoveItem s (getPersistHashKey pk (jsToString k))) st =
      .ok { st with
        items := del.foldl
          (fun it k => objRemove it (getPersistHashKey pk (jsToString k))) st.items } := by
  induction del with
  | nil =>
    intro st h
    rfl
  | cons d del ih =>
    intro st h
    rw [List.foldlM_cons]
    have hr : rawRemoveItem st (getPersistHashKey pk (jsToString d)) =
        .ok { st with
          items := objRemove st.items (getPersistHashKey pk (jsToString d)) } := by
      unfold rawRemoveItem
      rw [h]
      simp
    rw [hr, except_ok_bind,
      ih ({ st with items := objRemove st.items (getPersistHashKey pk (jsToString d)) }) h]
    rfl

theorem removeFold_lookup_none (g : JValue → String) (del : List JValue) :
    ∀ (items : List (String × String)) (key : String), objGet items key = none →
    objGet (del.foldl (fun it k => objRemove it (g k)) items) key = none := by
  induction del with
  | nil => intro items key h; exact h
  | cons d del ih =>
    intro items key h
    rw [List.foldl_cons]
    apply ih
    by_cases hk : g d = key
    · rw [← hk]
      exact objGet_objRemove_self _ _
    · rw [objGet_objRemove_other _ _ _ hk]
      exact h

theorem removeFold_lookup_mem (g : JValue → String) (del : List JValue) :
    ∀ (items : List (String × String)) (key : String), (∃ d ∈ del, g d = key) →
    objGet (del.foldl (fun it k => objRemove it (g k)) items) key = none := by
  induction del with
  | nil =>
    intro items key h
    simp at h
  | cons d del ih =>
    intro items key h
    rw [List.foldl_cons]
    obtain ⟨d2, hd2, he⟩ := h
    rcases List.mem_cons.mp hd2 with h1 | h1
    · subst h1
      apply removeFold_lookup_none
      rw [← he]
      exact objGet_objRemove_self _ _
    · exact ih _ _ ⟨d2, h1, he⟩

theorem removeFold_lookup_absent (g : JValue → String) (del : List JValue) :
    ∀ (items : List (String × String)) (key : String), (∀ d ∈ del, g d ≠ key) →
    objGet (del.foldl (fun it k => objRemove it (g k)) items) key = objGet items key := by
  induction del with
  | nil => intro items key h; rfl
  | cons d del ih =>
    intro items key h
    rw [List.foldl_cons, ih _ _ (fun x hx => h x (List.mem_cons_of_mem d hx)),
      objGet_objRemove_other _ _ _ (h d (List.mem_cons_self d del))]

/-- C5: flushing a HASH_RESET event against a stored key-set on a
non-throwing backend succeeds with: (i) the key-set rewritten under the
field key containing exactly the entry ids of the new mapping whose
values serialized to a non-null string; (ii) every entry id of the old
key-set absent from those written ids having its per-entry storage key
removed (and, by (i), dropped from the key-set); and (iii) every written
entry stored under its per-entry key. -/
theorem c5_hash_reset_cleanup (debug : Bool) (pk : String) (ev : CnPersistEvent)
    (fields : List (String × JValue)) (oldKeys : List String)
    (hobj : ev.newValue = .vObj fields) (hnd : (fields.map Prod.fst).Nodup)
    (hold : readHashKeySet (getItem debug ev.storage pk).1 = .ok (oldKeys.map .vStr))
    (hset : ∀ k, ev.storage.setThrows k = false)
    (hrem : ∀ k, ev.storage.removeThrows k = false) :
    ∃ st2 log, persistHashReset debug pk ev = .ok (st2, log) ∧
      objGet st2.items pk =
        some (jsonStringify (.vArr ((writtenKeys ev.serialize fields).map JValue.vStr))) ∧
      (∀ k ∈ oldKeys, k ∉ writtenKeys ev.serialize fields →
        objGet st2.items (getPersistHashKey pk k) = none) ∧
      (∀ e ∈ writtenEntries ev.serialize fields,
        objGet st2.items (getPersistHashKey pk e.1) = some e.2) := by
  have hwnd : ((writtenKeys ev.serialize fields).map JValue.vStr).Nodup :=
    (writtenKeys_nodup ev.serialize fields hnd).map vStr_injective
  have hksfold : ((writtenKeys ev.serialize fields).map JValue.vStr).foldl setAdd [] =
      (writtenKeys ev.serialize fields).map JValue.vStr := by
    rw [foldl_setAdd_nodup _ [] hwnd, List.nil_append, List.filter_eq_self]
    simp
  have hrun : persistHashReset debug pk ev =
      .ok (({ ev.storage with
          items := objSet
            (((oldKeys.map JValue.vStr).filter
                (fun d => decide (d ∉ (writtenKeys ev.serialize fields).map JValue.vStr))).foldl
              (fun it k => objRemove it (getPersistHashKey pk (jsToString k)))
              (applyWrites ev.storage.items
                ((writtenEntries ev.serialize fields).map
                  (fun e => (getPersistHashKey pk e.1, e.2)))))
            pk
            (jsonStringify (.vArr ((writtenKeys ev.serialize fields).map JValue.vStr))) }),
        (getItem debug ev.storage pk).2 ++ []) := by
    unfold persistHashReset
    simp only [hold, except_ok_bind, hobj, entriesOf]
    rw [persistHashReset_fold debug pk ev.serialize fields ev.storage [] (oldKeys.map .vStr)
      (getItem debug ev.storage pk).2 hset]
    simp only [hksfold]
    rw [removal_foldlM pk _
      ({ ev.storage with
        items := applyWrites ev.storage.items
          ((writtenEntries ev.serialize fields).map
            (fun e => (getPersistHashKey pk e.1, e.2))) })
      hrem, except_ok_bind]
    rw [setItem_benign debug
      ({ ev.storage with
        items := ((oldKeys.map JValue.vStr).filter
            (fun d => decide (d ∉ (writtenKeys ev.serialize fields).map JValue.vStr))).foldl
          (fun it k => objRemove it (getPersistHashKey pk (jsToString k)))
          (applyWrites ev.storage.items
            ((writtenEntries ev.serialize fields).map
              (fun e => (getPersistHashKey pk e.1, e.2)))) })
      pk
      (jsonStringify (.vArr ((writtenKeys ev.serialize fields).map JValue.vStr)))
      (hset pk)]
  refine ⟨_, _, hrun, objGet_objSet_self _ _ _, ?_, ?_⟩
  · intro k hk hnw
    have hne : getPersistHashKey pk k ≠ pk := getPersistHashKey_ne_self pk k
    rw [objGet_objSet_other _ _ _ _ (fun h => hne h.symm)]
    apply removeFold_lookup_mem
    refine ⟨.vStr k, ?_, rfl⟩
    rw [List.mem_filter]
    refine ⟨List.mem_map.mpr ⟨k, hk, rfl⟩, ?_⟩
    simp only [decide_eq_true_eq]
    intro hmem
    exact hnw ((List.mem_map_of_injective vStr_injective).mp hmem)
  · intro e he
    have hne : getPersistHashKey pk e.1 ≠ pk := getPersistHashKey_ne_self pk e.1
    rw [objGet_objSet_other _ _ _ _ (fun h => hne h.symm)]
    rw [removeFold_lookup_absent]
    · apply applyWrites_lookup_mem
      · rw [List.map_map]
        have := (writtenKeys_nodup ev.serialize fields hnd).map
          (f := fun k => getPersistHashKey pk k)
          (fun a b h => getPersistHashKey_inj pk a b h)
        simpa [writtenKeys, List.map_map] using this
      · exact List.mem_map.mpr ⟨e, he, rfl⟩
    · intro d hd
      obtain ⟨hd1, hd2⟩ := List.mem_filter.mp hd
      obtain ⟨k2, hk2, rfl⟩ := List.mem_map.mp hd1
      simp only [decide_eq_true_eq] at hd2
      intro hgd
      have hk2e : k2 = e.1 := getPersistHashKey_inj pk k2 e.1 hgd
      apply hd2
      rw [hk2e]
      exact List.mem_map.mpr ⟨e.1, List.mem_map.mpr ⟨e, he, rfl⟩, rfl⟩

/-- C5 witness: the spec's own example — old key-set `["a","b"]`,
new full value with the single entry `a ↦ 3`: entry `a` updated, entry
`b` removed and the key-set rewritten to `["a"]`. -/
theorem c5_hash_reset_cleanup_witness :
    ∃ st2 log,
      persistHashReset false "cn-s-h"
          ⟨.HASH_RESET,
            ⟨[("cn-s-h", jsonStringify (.vArr [.vStr "a", .vStr "b"])),
              ("cn-s-h-a", "1"), ("cn-s-h-b", "2")],
              fun _ => false, fun _ => false, fun _ => false⟩,
            .vObj [("a", .vNum 3)], DEFAULT_STATE_SERIALIZER⟩ =
        .ok (st2, log) ∧
      objGet st2.items "cn-s-h" =
        some (jsonStringify (.vArr
          ((writtenKeys DEFAULT_STATE_SERIALIZER [("a", .vNum 3)]).map JValue.vStr))) ∧
      (∀ k ∈ ["a", "b"], k ∉ writtenKeys DEFAULT_STATE_SERIALIZER [("a", .vNum 3)] →
        objGet st2.items (getPersistHashKey "cn-s-h" k) = none) ∧
      (∀ e ∈ writtenEntries DEFAULT_STATE_SERIALIZER [("a", .vNum 3)],
        objGet st2.items (getPersistHashKey "cn-s-h" e.1) = some e.2) :=
  c5_hash_reset_cleanup false "cn-s-h"
    ⟨.HASH_RESET,
      ⟨[("cn-s-h", jsonStringify (.vArr [.vStr "a", .vStr "b"])),
        ("cn-s-h-a", "1"), ("cn-s-h-b", "2")],
        fun _ => false, fun _ => false, fun _ => false⟩,
      .vObj [("a", .vNum 3)], DEFAULT_STATE_SERIALIZER⟩
    [("a", .vNum 3)] ["a", "b"] rfl (by decide) rfl (fun _ => rfl) (fun _ => rfl)

end CnPersist
